import Mathlib

/-!
# ILI9341 TFT driver (`src/ili9341_module.c`): shallow embedding

The C module drives an ILI9341 panel over SPI.  Its observable behaviour is the
ordered sequence of calls it makes on its two collaborators (the SPI transfer
`TFT_sendByte` and the GPIO setter `gpioSet`) together with the fields of
`ILI9341PyObject`.

Conventions of the embedding

* C `int` values are `Int` and arithmetic on them is exact (signed overflow of
  `int` is undefined behaviour in C and outside the model); an assignment to an
  `int16_t` variable is `wrap16` of the assigned value; `TFT_sendByte` takes a
  `char`, so the byte put on the bus is the value modulo 256 (`toByte`).
* `a / b` on C integers truncates toward zero (`Int.tdiv`), `a % b` is the
  matching remainder (`Int.tmod`).
* Bit masks act on the two's-complement representation (`toU32`).
* Every drawing routine bottoms out in `TFT_setPixel`; a drawing routine is
  embedded as the ordered list of its `TFT_setPixel` calls (`Pixel`), and
  `busOfPixels` turns such a list into the collaborator calls it stands for.
* The headers `ili9341.h` and `fonts.h` are not part of the sources at hand;
  their constants are the fields of `Header` and `FontsHeader`, the font table
  is a parameter.
* Whether plain `char` is signed depends on the target; it is the parameter
  `signedChar` of the font routines.
* An optional Python argument is an `Option`, `none` when it is left out.
-/

namespace ILI9341

/-! ## Machine integers -/

/-- Value stored by an assignment to an `int16_t` variable. -/
def wrap16 (v : Int) : Int := (v + 32768) % 65536 - 32768

/-- Two's-complement bit pattern of a C `int`. -/
def toU32 (v : Int) : Nat := (v % 4294967296).toNat

/-- The `char` argument of `TFT_sendByte`, seen as the byte on the wire. -/
def toByte (v : Int) : Nat := (v % 256).toNat

/-! ## Collaborator calls -/

/-- One call on a collaborator, in program order. -/
inductive Ev where
  /-- Source: `gpioExport(gpio)` -/
  | gpioExport (gpio : Int)
  /-- Source: `gpioSetDirection(gpio, direction)` -/
  | gpioSetDirection (gpio : Int) (direction : Int)
  /-- Source: `gpioSet(self->fd_dc, v)`: `TFT_DC_LOW` is `dc false`, `TFT_DC_HIGH` is `dc true` -/
  | dc (high : Bool)
  /-- Source: `gpioSet(self->fd_reset, v)` -/
  | rst (high : Bool)
  /-- Source: `TFT_sendByte`: one single-byte SPI transfer -/
  | spi (byte : Nat)
  /-- Source: `for(i=0; i<n; i++);` busy wait -/
  | delay (n : Nat)
  deriving DecidableEq, Repr

/-- A bus transfer as the panel sees it: level of the D/C line and the byte. -/
structure Xfer where
  dcHigh : Bool
  byte : Nat
  deriving DecidableEq, Repr

/-- Command byte (D/C low). -/
def Xfer.cmd (b : Nat) : Xfer := ⟨false, b⟩

/-- Data byte (D/C high). -/
def Xfer.data (b : Nat) : Xfer := ⟨true, b⟩

/-- The bus transfers of a call sequence, each tagged with the D/C level that
the last `gpioSet(self->fd_dc, _)` before it selected (`d` is the level at the
start). -/
def transfers : Bool → List Ev → List Xfer
  | _, [] => []
  | _, Ev.dc v :: es => transfers v es
  | d, Ev.spi b :: es => ⟨d, b⟩ :: transfers d es
  | d, _ :: es => transfers d es

/-! ## Command/data emitter (`TFT_sendCMD` .. `TFT_setPixel`) -/

/-- Source: `TFT_sendByte(self, data)` -/
def TFT_sendByte (data : Int) : List Ev := [Ev.spi (toByte data)]

/-- Source: `TFT_sendCMD(self, index)` -/
def TFT_sendCMD (index : Int) : List Ev := Ev.dc false :: TFT_sendByte index

/-- Source: `TFT_sendDATA(self, data)` -/
def TFT_sendDATA (data : Int) : List Ev := Ev.dc true :: TFT_sendByte data

/-- Source: `TFT_sendWord(self, data)`: `data >> 8` then `data & 0x00ff` -/
def TFT_sendWord (data : Int) : List Ev :=
  Ev.dc true :: (TFT_sendByte (data >>> (8 : Nat)) ++ TFT_sendByte ((toU32 data &&& 0x00ff : Nat) : Int))

/-- High byte of a 16-bit word, as the claims about `TFT_sendWord` name it. -/
def hiByte (v : Int) : Nat := (v / 256).toNat

/-- Low byte of a 16-bit word, as the claims about `TFT_sendWord` name it. -/
def loByte (v : Int) : Nat := (v % 256).toNat

/-- Source: `TFT_setCol(self, StartCol, EndCol)` -/
def TFT_setCol (StartCol EndCol : Int) : List Ev :=
  TFT_sendCMD 0x2A ++ TFT_sendWord StartCol ++ TFT_sendWord EndCol

/-- Source: `TFT_setPage(self, StartPage, EndPage)` -/
def TFT_setPage (StartPage EndPage : Int) : List Ev :=
  TFT_sendCMD 0x2B ++ TFT_sendWord StartPage ++ TFT_sendWord EndPage

/-- Source: `TFT_setXY(self, poX, poY)` -/
def TFT_setXY (poX poY : Int) : List Ev :=
  TFT_setCol poX poX ++ TFT_setPage poY poY ++ TFT_sendCMD 0x2c

/-- Source: `TFT_setPixel(self, poX, poY, color)` -/
def TFT_setPixel (poX poY color : Int) : List Ev :=
  TFT_setXY poX poY ++ TFT_sendWord color

/-- Source: `TFT_rgb2color(self, R, G, B)` -/
def TFT_rgb2color (R G B : Int) : Int :=
  let rgb : Nat := toU32 R &&& 0x1F
  let rgb : Nat := rgb <<< 6
  let rgb : Nat := rgb ||| (toU32 G &&& 0x3F)
  let rgb : Nat := rgb <<< 5
  let rgb : Nat := rgb ||| (toU32 B &&& 0x1F)
  (rgb : Int)

/-! ## Primitive rasterizer -/

/-- One call `TFT_setPixel(self, poX, poY, color)`, as `(poX, poY, color)`. -/
abbrev Pixel := Int × Int × Int

/-- The collaborator calls behind a list of `TFT_setPixel` calls. -/
def busOfPixels (ps : List Pixel) : List Ev :=
  ps.flatMap (fun p => TFT_setPixel p.1 p.2.1 p.2.2)

/-- The `for (; x0<=x1; x0++)` loop of `ili9341_drawLine`.  The first argument
bounds the number of iterations; `ili9341_drawLine` passes the exact count. -/
def drawLineLoop (steep : Bool) (dx dy ystep x1 color : Int) :
    Nat → Int → Int → Int → List Pixel
  | 0, _, _, _ => []
  | fuel + 1, x0, y0, err =>
    if x0 ≤ x1 then
      let px : Pixel := if steep then (y0, x0, color) else (x0, y0, color)
      let err1 := wrap16 (err - dy)
      if err1 < 0 then
        px :: drawLineLoop steep dx dy ystep x1 color fuel (x0 + 1) (y0 + ystep) (wrap16 (err1 + dx))
      else
        px :: drawLineLoop steep dx dy ystep x1 color fuel (x0 + 1) y0 err1
    else []

/-- Source: `ili9341_drawLine` after the two conditional swaps: `dx`, `dy`, `err`,
`ystep` and the loop. -/
def drawLineBody (steep : Bool) (x0 y0 x1 y1 color : Int) : List Pixel :=
  let dx := wrap16 (x1 - x0)
  let dy := wrap16 ((y1 - y0).natAbs : Int)
  let err := wrap16 (dx.tdiv 2)
  let ystep : Int := if y0 < y1 then 1 else -1
  drawLineLoop steep dx dy ystep x1 color (x1 + 1 - x0).toNat x0 y0 err

/-- Source: `ili9341_drawLine` from `if (x0 > x1)` on. -/
def drawLineOrdered (steep : Bool) (x0 y0 x1 y1 color : Int) : List Pixel :=
  if x0 > x1 then drawLineBody steep x1 y1 x0 y0 color
  else drawLineBody steep x0 y0 x1 y1 color

/-- Source: `ili9341_drawLine(x0, y0, x1, y1, color)` -/
def ili9341_drawLine (x0 y0 x1 y1 color : Int) : List Pixel :=
  let steep : Bool := decide ((y1 - y0).natAbs > (x1 - x0).natAbs)
  if steep then drawLineOrdered steep y0 x0 y1 x1 color
  else drawLineOrdered steep x0 y0 x1 y1 color

/-- Source: `ili9341_drawFastVLine(x, y, len, color)` -/
def ili9341_drawFastVLine (x y len color : Int) : List Pixel :=
  ili9341_drawLine x y x (y + len - 1) color

/-- Source: `ili9341_drawFastHLine(x, y, len, color)` -/
def ili9341_drawFastHLine (x y len color : Int) : List Pixel :=
  ili9341_drawLine x y (x + len - 1) y color

/-- Source: `ili9341_drawRect(x, y, w, h, color)` -/
def ili9341_drawRect (x y w h color : Int) : List Pixel :=
  ili9341_drawFastHLine x y w color
    ++ ili9341_drawFastHLine x (y + h - 1) w color
    ++ ili9341_drawFastVLine x y h color
    ++ ili9341_drawFastVLine (x + w - 1) y h color

/-- The `for (i=x; i<x+w; i++)` loop of `ili9341_fillRect`, `xw` being `x+w`. -/
def fillRectLoop (y h color xw : Int) : Nat → Int → List Pixel
  | 0, _ => []
  | fuel + 1, i =>
    if i < xw then
      ili9341_drawFastVLine i y h color ++ fillRectLoop y h color xw fuel (i + 1)
    else []

/-- Source: `ili9341_fillRect(x, y, w, h, color)` -/
def ili9341_fillRect (x y w h color : Int) : List Pixel :=
  fillRectLoop y h color (x + w) (x + w - x).toNat x

/-- The eight `TFT_setPixel` calls at the end of one iteration of the
`while (x < y)` loop of `ili9341_drawCircle`. -/
def circleOctants (x0 y0 x y color : Int) : List Pixel :=
  [(x0 + x, y0 + y, color), (x0 - x, y0 + y, color),
   (x0 + x, y0 - y, color), (x0 - x, y0 - y, color),
   (x0 + y, y0 + x, color), (x0 - y, y0 + x, color),
   (x0 + y, y0 - x, color), (x0 - y, y0 - x, color)]

/-- The `while (x < y)` loop of `ili9341_drawCircle`; the loop variables `f`,
`ddF_x`, `ddF_y`, `x`, `y` are `int16_t`. -/
def drawCircleLoop (x0 y0 color : Int) : Nat → Int → Int → Int → Int → Int → List Pixel
  | 0, _, _, _, _, _ => []
  | fuel + 1, f, ddF_x, ddF_y, x, y =>
    if x < y then
      let y1 := if f ≥ 0 then wrap16 (y - 1) else y
      let ddF_y1 := if f ≥ 0 then wrap16 (ddF_y + 2) else ddF_y
      let f1 := if f ≥ 0 then wrap16 (f + ddF_y1) else f
      let x1 := wrap16 (x + 1)
      let ddF_x1 := wrap16 (ddF_x + 2)
      let f2 := wrap16 (f1 + ddF_x1)
      circleOctants x0 y0 x1 y1 color
        ++ drawCircleLoop x0 y0 color fuel f2 ddF_x1 ddF_y1 x1 y1
    else []

/-- Source: `ili9341_drawCircle(x0, y0, r, color)` -/
def ili9341_drawCircle (x0 y0 r color : Int) : List Pixel :=
  let f := wrap16 (1 - r)
  let ddF_x := wrap16 1
  let ddF_y := wrap16 (-2 * r)
  let x := wrap16 0
  let y := wrap16 r
  [(x0, y0 + r, color), (x0, y0 - r, color), (x0 + r, y0, color), (x0 - r, y0, color)]
    ++ drawCircleLoop x0 y0 color (y - x).toNat f ddF_x ddF_y x y

/-! ## Display state and header constants -/

/-- Constants of `ili9341.h` that the module uses. Dimensions and command
codes are C integer constants; the `MADCTL_*` flags are bit masks. -/
structure Header where
  ILI9341_TFTWIDTH : Int
  ILI9341_TFTHEIGHT : Int
  ILI9341_PWCTR1 : Int
  ILI9341_PWCTR2 : Int
  ILI9341_VMCTR1 : Int
  ILI9341_VMCTR2 : Int
  ILI9341_MADCTL : Int
  ILI9341_PIXFMT : Int
  ILI9341_FRMCTR1 : Int
  ILI9341_DFUNCTR : Int
  ILI9341_GAMMASET : Int
  ILI9341_GMCTRP1 : Int
  ILI9341_GMCTRN1 : Int
  ILI9341_SLPOUT : Int
  ILI9341_DISPON : Int
  ILI9341_INVON : Int
  ILI9341_INVOFF : Int
  MADCTL_MY : Nat
  MADCTL_MX : Nat
  MADCTL_MV : Nat
  MADCTL_BGR : Nat

/-- Modelled from the spec: `ili9341.h` is missing. The spec fixes the
memory-access-control command as 0x36; the other values are the command codes
and flag bits of the ILI9341 data sheet for a 240 x 320 panel. This header is
only used to evaluate the model at a concrete input. -/
def datasheet : Header where
  ILI9341_TFTWIDTH := 240
  ILI9341_TFTHEIGHT := 320
  ILI9341_PWCTR1 := 0xC0
  ILI9341_PWCTR2 := 0xC1
  ILI9341_VMCTR1 := 0xC5
  ILI9341_VMCTR2 := 0xC7
  ILI9341_MADCTL := 0x36
  ILI9341_PIXFMT := 0x3A
  ILI9341_FRMCTR1 := 0xB1
  ILI9341_DFUNCTR := 0xB6
  ILI9341_GAMMASET := 0x26
  ILI9341_GMCTRP1 := 0xE0
  ILI9341_GMCTRN1 := 0xE1
  ILI9341_SLPOUT := 0x11
  ILI9341_DISPON := 0x29
  ILI9341_INVON := 0x21
  ILI9341_INVOFF := 0x20
  MADCTL_MY := 0x80
  MADCTL_MX := 0x40
  MADCTL_MV := 0x20
  MADCTL_BGR := 0x08

/-- A font blob (`unsigned char *`): the bytes the pointer refers to. The
blobs are static and never written, so a reference is represented by the
bytes it points at. -/
abbrev Font := List Nat

/-- The fields of `ILI9341PyObject` below `PyObject_HEAD`. -/
structure ILI9341PyObject where
  fd : Int
  fd_dc : Int
  fd_reset : Int
  pin_reset : Int
  pin_dc : Int
  width : Int
  height : Int
  rotation : Int
  font : Font
  color : Int
  bg_color : Int
  char_spacing : Int
  cursor_x : Int
  cursor_y : Int
  deriving DecidableEq, Repr

/-- The zero-filled object that `PyType_GenericNew` allocates (`font` is the
null pointer, shown as the empty blob). -/
def zeroObject : ILI9341PyObject :=
  { fd := 0, fd_dc := 0, fd_reset := 0, pin_reset := 0, pin_dc := 0, width := 0, height := 0,
    rotation := 0, font := [], color := 0, bg_color := 0, char_spacing := 0,
    cursor_x := 0, cursor_y := 0 }

/-! ## Initialization sequencer -/

/-- The command/data script of `ili9341_init`, from `TFT_sendCMD(self, 0xEF)`
up to and including the gamma tables (source lines 135-236). -/
def initScript (K : Header) : List Ev :=
  List.flatten [
    TFT_sendCMD 0xEF, TFT_sendDATA 0x03, TFT_sendDATA 0x80, TFT_sendDATA 0x02,
    TFT_sendCMD 0xCB, TFT_sendDATA 0x39, TFT_sendDATA 0x2C, TFT_sendDATA 0x00,
    TFT_sendDATA 0x34, TFT_sendDATA 0x02,
    TFT_sendCMD 0xCF, TFT_sendDATA 0x00, TFT_sendDATA 0xC1, TFT_sendDATA 0x30,
    TFT_sendCMD 0xE8, TFT_sendDATA 0x85, TFT_sendDATA 0x00, TFT_sendDATA 0x78,
    TFT_sendCMD 0xEA, TFT_sendDATA 0x00, TFT_sendDATA 0x00,
    TFT_sendCMD 0xED, TFT_sendDATA 0x64, TFT_sendDATA 0x03, TFT_sendDATA 0x12,
    TFT_sendDATA 0x81,
    TFT_sendCMD 0xF7, TFT_sendDATA 0x20,
    TFT_sendCMD K.ILI9341_PWCTR1, TFT_sendDATA 0x23,
    TFT_sendCMD K.ILI9341_PWCTR2, TFT_sendDATA 0x10,
    TFT_sendCMD K.ILI9341_VMCTR1, TFT_sendDATA 0x3e, TFT_sendDATA 0x28,
    TFT_sendCMD K.ILI9341_VMCTR2, TFT_sendDATA 0x86,
    TFT_sendCMD K.ILI9341_MADCTL, TFT_sendDATA ((K.MADCTL_MX ||| K.MADCTL_BGR : Nat) : Int),
    TFT_sendCMD K.ILI9341_PIXFMT, TFT_sendDATA 0x55,
    TFT_sendCMD K.ILI9341_FRMCTR1, TFT_sendDATA 0x00, TFT_sendDATA 0x18,
    TFT_sendCMD K.ILI9341_DFUNCTR, TFT_sendDATA 0x08, TFT_sendDATA 0x82, TFT_sendDATA 0x27,
    TFT_sendCMD 0xF2, TFT_sendDATA 0x00,
    TFT_sendCMD K.ILI9341_GAMMASET, TFT_sendDATA 0x01,
    TFT_sendCMD K.ILI9341_GMCTRP1,
    TFT_sendDATA 0x0F, TFT_sendDATA 0x31, TFT_sendDATA 0x2B, TFT_sendDATA 0x0C,
    TFT_sendDATA 0x0E, TFT_sendDATA 0x08, TFT_sendDATA 0x4E, TFT_sendDATA 0xF1,
    TFT_sendDATA 0x37, TFT_sendDATA 0x07, TFT_sendDATA 0x10, TFT_sendDATA 0x03,
    TFT_sendDATA 0x0E, TFT_sendDATA 0x09, TFT_sendDATA 0x00,
    TFT_sendCMD K.ILI9341_GMCTRN1,
    TFT_sendDATA 0x00, TFT_sendDATA 0x0E, TFT_sendDATA 0x14, TFT_sendDATA 0x03,
    TFT_sendDATA 0x11, TFT_sendDATA 0x07, TFT_sendDATA 0x31, TFT_sendDATA 0xC1,
    TFT_sendDATA 0x48, TFT_sendDATA 0x08, TFT_sendDATA 0x0F, TFT_sendDATA 0x0C,
    TFT_sendDATA 0x31, TFT_sendDATA 0x36, TFT_sendDATA 0x0F]

/-- The calls `ili9341_init` makes once the bus device is open. -/
def initCalls (K : Header) (pin_dc pin_reset : Int) : List Ev :=
  [Ev.gpioExport pin_dc, Ev.gpioSetDirection pin_dc 1,
   Ev.gpioExport pin_reset, Ev.gpioSetDirection pin_reset 1,
   Ev.dc true,
   Ev.rst false, Ev.delay 0x7FFFFF, Ev.rst true]
    ++ initScript K
    ++ TFT_sendCMD K.ILI9341_SLPOUT
    ++ [Ev.delay 0x7FFFFF]
    ++ TFT_sendCMD K.ILI9341_DISPON
    ++ TFT_sendCMD 0x2c

/-- Source: `ili9341_init(self, bus, chip_select, dc, reset)`. `fd` is what
`open("/dev/spidevB.C", O_RDWR)` returned, `fd_dc` and `fd_reset` what the two
`gpioOpenSet` calls returned, `System5x7` the default font of `fonts.h`. The
result is `none` where the C function returns `-1`. -/
def ili9341_init (K : Header) (System5x7 : Font) (self : ILI9341PyObject)
    (pin_dc pin_reset fd fd_dc fd_reset : Int) : Option (ILI9341PyObject × List Ev) :=
  if fd < 0 then none
  else
    some ({ self with
              fd := fd, pin_dc := pin_dc, pin_reset := pin_reset,
              fd_dc := fd_dc, fd_reset := fd_reset,
              width := K.ILI9341_TFTWIDTH, height := K.ILI9341_TFTHEIGHT,
              color := 0xffff, bg_color := 0, cursor_x := 0, cursor_y := 0,
              font := System5x7, char_spacing := 1 },
          initCalls K pin_dc pin_reset)

/-! ## Rotation -/

/-- Source: `ili9341_rotation(self, mode)`: the updated object and the calls made. -/
def ili9341_rotation (K : Header) (self : ILI9341PyObject) (mode : Int) :
    ILI9341PyObject × List Ev :=
  let self1 := { self with rotation := mode.tmod 4 }
  let t := TFT_sendCMD K.ILI9341_MADCTL
  if self1.rotation = 0 then
    ({ self1 with width := K.ILI9341_TFTWIDTH, height := K.ILI9341_TFTHEIGHT },
      t ++ TFT_sendCMD ((K.MADCTL_MX ||| K.MADCTL_BGR : Nat) : Int))
  else if self1.rotation = 1 then
    ({ self1 with width := K.ILI9341_TFTHEIGHT, height := K.ILI9341_TFTWIDTH },
      t ++ TFT_sendCMD ((K.MADCTL_MV ||| K.MADCTL_BGR : Nat) : Int))
  else if self1.rotation = 2 then
    ({ self1 with width := K.ILI9341_TFTWIDTH, height := K.ILI9341_TFTHEIGHT },
      t ++ TFT_sendCMD ((K.MADCTL_MY ||| K.MADCTL_BGR : Nat) : Int))
  else if self1.rotation = 3 then
    ({ self1 with width := K.ILI9341_TFTHEIGHT, height := K.ILI9341_TFTWIDTH },
      t ++ TFT_sendCMD ((K.MADCTL_MX ||| K.MADCTL_MY ||| K.MADCTL_MV ||| K.MADCTL_BGR : Nat) : Int))
  else (self1, t)

/-! ## Font selection -/

/-- One `font_info` entry of `fonts_table`: name and blob. The table is the
list of entries in front of the terminating entry whose name is `NULL`. -/
abbrev FontTable := List (String × Font)

/-- The `while (f->name != NULL)` loop of `ili9341_setFont`. -/
def setFontLoop (font : String) (self : ILI9341PyObject) : FontTable → ILI9341PyObject
  | [] => self
  | f :: rest =>
    if f.1 = font then { self with font := f.2 }
    else setFontLoop font self rest

/-- Source: `ili9341_setFont(self, font, spacing=1)`; `spacing` is `none` when the
caller leaves the optional argument out. -/
def ili9341_setFont (fonts_table : FontTable) (self : ILI9341PyObject)
    (font : String) (spacing : Option Int) : ILI9341PyObject :=
  let spacing : Int := spacing.getD 1
  let self1 := { self with char_spacing := spacing }
  setFontLoop font self1 fonts_table

/-! ## Cursor -/

/-- Source: `ili9341_setCursor(self, x, y)` -/
def ili9341_setCursor (self : ILI9341PyObject) (x y : Int) : ILI9341PyObject :=
  let self1 := if x ≤ self.width then { self with cursor_x := x } else self
  if y ≤ self1.height then { self1 with cursor_y := y } else self1

/-! ## Clear -/

/-- The `for(i=0; i<bytes; i++)` loop of `ili9341_clear`. The first argument
bounds the number of iterations; `ili9341_clear` passes the exact count. -/
def clearLoop (bytes : Int) : Nat → Int → List Ev
  | 0, _ => []
  | fuel + 1, i =>
    if i < bytes then TFT_sendWord 0 ++ clearLoop bytes fuel (i + 1)
    else []

/-- Source: `ili9341_clear(self)`: the calls made. -/
def ili9341_clear (K : Header) (self : ILI9341PyObject) : List Ev :=
  let bytes := K.ILI9341_TFTWIDTH * K.ILI9341_TFTHEIGHT
  TFT_setCol 0 self.width ++ TFT_setPage 0 self.height ++ TFT_sendCMD 0x2c
    ++ [Ev.dc true] ++ clearLoop bytes bytes.toNat 0

/-! ## Filled circle -/

/-- One pass through the body of the `do { ... } while (x <= 0)` loop of
`ili9341_fillCircle`: the two spans drawn and the values of `x`, `y`, `err`
at the end of the body. All three variables are C `int`. -/
def fillCircleBody (poX poY color x y err : Int) : List Pixel × (Int × Int × Int) :=
  let spans := ili9341_drawFastVLine (poX - x) (poY - y) (2 * y) color
    ++ ili9341_drawFastVLine (poX + x) (poY - y) (2 * y) color
  let e2 := err
  let y1 := if e2 ≤ y then y + 1 else y
  let err1 := if e2 ≤ y then err + (y1 * 2 + 1) else err
  let e2 := if e2 ≤ y ∧ -x = y1 ∧ e2 ≤ x then 0 else e2
  let x1 := if e2 > x then x + 1 else x
  let err2 := if e2 > x then err1 + (x1 * 2 + 1) else err1
  (spans, (x1, y1, err2))

/-- The `do { ... } while (x <= 0)` loop of `ili9341_fillCircle`, run for at
most `fuel` passes. The result is the pixel writes, the number of passes made
and the final `x`, `y`, `err`; it is `none` when the loop has not left after
`fuel` passes. -/
def fillCircleLoop (poX poY color : Int) :
    Nat → Int → Int → Int → Option (List Pixel × Nat × (Int × Int × Int))
  | 0, _, _, _ => none
  | fuel + 1, x, y, err =>
    let r := fillCircleBody poX poY color x y err
    if r.2.1 ≤ 0 then
      (fillCircleLoop poX poY color fuel r.2.1 r.2.2.1 r.2.2.2).map
        (fun t => (r.1 ++ t.1, t.2.1 + 1, t.2.2))
    else some (r.1, 1, r.2)

/-- Source: `ili9341_fillCircle(poX, poY, r, color)`, run for at most `fuel`
passes of its loop. -/
def ili9341_fillCircle (fuel : Nat) (poX poY r color : Int) :
    Option (List Pixel × Nat × (Int × Int × Int)) :=
  fillCircleLoop poX poY color fuel (-r) 0 (2 - 2 * r)

/-! ## Font decoder and renderer -/

/-- Byte offsets that `fonts.h` defines for the fields of a font blob. -/
structure FontsHeader where
  FONT_HEIGHT : Int
  FONT_FIRST_CHAR : Int
  FONT_CHAR_COUNT : Int
  FONT_LENGTH : Int
  FONT_FIXED_WIDTH : Int
  FONT_WIDTH_TABLE : Int

/-- Modelled from the spec: `fonts.h` is missing. The spec lays a blob out as
byte 0 = glyph height, byte 1 = first character, byte 2 = character count,
bytes 3-4 = length, then the fixed width (byte 5) with the glyph data right
after it, or the width table. This layout is only used to evaluate the model
at a concrete input. -/
def specLayout : FontsHeader where
  FONT_HEIGHT := 0
  FONT_FIRST_CHAR := 1
  FONT_CHAR_COUNT := 2
  FONT_LENGTH := 3
  FONT_FIXED_WIDTH := 5
  FONT_WIDTH_TABLE := 6

/-- The byte `font[i]` of a blob, a value in `0..255`. A read outside the blob
(undefined in C) is shown as 0. -/
def fontAt (font : Font) (i : Int) : Int :=
  if i < 0 then 0 else ((font.getD i.toNat 0 % 256 : Nat) : Int)

/-- Value of a C `char` holding `v`; `signedChar` tells whether plain `char`
is signed on the target. -/
def toChar (signedChar : Bool) (v : Int) : Int :=
  if signedChar then (v + 128) % 256 - 128 else v % 256

/-- Value stored by an assignment to a `uint16_t` variable. -/
def wrapU16 (v : Int) : Int := v % 65536

/-- Value stored by an assignment to a `uint8_t` variable. -/
def wrapU8 (v : Int) : Int := v % 256

/-- Source: `TFT_charWidth(self, ch)` -/
def TFT_charWidth (H : FontsHeader) (signedChar : Bool) (self : ILI9341PyObject) (ch : Nat) :
    Int :=
  let c := toChar signedChar ch
  let c := if c = 32 then 110 else c
  let firstChar := fontAt self.font H.FONT_FIRST_CHAR
  let charCount := fontAt self.font H.FONT_FIRST_CHAR
  if c < firstChar ∨ c ≥ firstChar + charCount then 0
  else
    let c := toChar signedChar (c - firstChar)
    if fontAt self.font H.FONT_LENGTH = 0 ∧ fontAt self.font (H.FONT_LENGTH + 1) = 0 then
      fontAt self.font H.FONT_FIXED_WIDTH
    else
      fontAt self.font (H.FONT_WIDTH_TABLE + c)

/-- The `for (i = 0; i < c; i++) index += font[FONT_WIDTH_TABLE + i];` loop of
`TFT_char`; `index` is `uint16_t`. -/
def widthSum (H : FontsHeader) (font : Font) (c : Int) : Int :=
  (List.range c.toNat).foldl
    (fun index (i : Nat) => wrapU16 (index + fontAt font (H.FONT_WIDTH_TABLE + i))) 0

/-- The `for (k = 0; k < 8; k++)` loop of `TFT_char` for column `j` and
row-byte `i`, with `data` and `offset` as computed in front of it. -/
def charBits (bX bY fgcolour bgcolour height : Int) (j i : Nat) (data offset : Int) :
    List Pixel :=
  (List.range 8).flatMap (fun (k : Nat) =>
    if offset + k ≥ i * 8 ∧ offset + k ≤ height then
      [((bX + j, bY + offset + k,
          if data.toNat.testBit k then fgcolour else bgcolour) : Pixel)]
    else [])

/-- The body of the `for (i = 0; i < bytes; i++)` loop of `TFT_char`. -/
def charRowByte (font : Font) (bX bY fgcolour bgcolour width height bytes index : Int)
    (j i : Nat) : List Pixel :=
  let data := fontAt font (index + j + i * width)
  let offset : Int :=
    if (i : Int) = bytes - 1 ∧ bytes > 1 then height - 8
    else if height < 8 then height - 7
    else i * 8
  charBits bX bY fgcolour bgcolour height j i data offset

/-- The drawing loops of `TFT_char` (`for (j = 0; j < width; j++)` around
`for (i = 0; i < bytes; i++)`). Bounds and counters are not written in the
bodies, so each loop is a traversal of `0 .. bound-1`. -/
def charGlyph (font : Font) (bX bY fgcolour bgcolour width height bytes index : Int) :
    List Pixel :=
  (List.range width.toNat).flatMap (fun (j : Nat) =>
    (List.range bytes.toNat).flatMap (fun (i : Nat) =>
      charRowByte font bX bY fgcolour bgcolour width height bytes index j i))

/-- The test `font[FONT_LENGTH] == 0 && font[FONT_LENGTH + 1] == 0` of
`TFT_char`: a zero length marks a fixed-width font. -/
def fontIsFixed (H : FontsHeader) (font : Font) : Bool :=
  decide (fontAt font H.FONT_LENGTH = 0 ∧ fontAt font (H.FONT_LENGTH + 1) = 0)

/-- The variable `width` of `TFT_char` after the fixed/variable branch, `c`
being the character minus `firstChar`. -/
def charGlyphWidth (H : FontsHeader) (font : Font) (c : Int) : Int :=
  if fontIsFixed H font then fontAt font H.FONT_FIXED_WIDTH
  else fontAt font (H.FONT_WIDTH_TABLE + c)

/-- The variable `index` (`uint16_t`) of `TFT_char` after the fixed/variable
branch. -/
def charGlyphIndex (H : FontsHeader) (font : Font) (c bytes charCount : Int) : Int :=
  if fontIsFixed H font then
    wrapU16 (c * bytes * fontAt font H.FONT_FIXED_WIDTH + H.FONT_WIDTH_TABLE)
  else
    wrapU16 (widthSum H font c * bytes + charCount + H.FONT_WIDTH_TABLE)

/-- Source: `TFT_char(self, ch)`: the value returned and the pixel writes. -/
def TFT_char (H : FontsHeader) (signedChar : Bool) (self : ILI9341PyObject) (ch : Nat) :
    Int × List Pixel :=
  let bX := self.cursor_x
  let bY := self.cursor_y
  let fgcolour := self.color
  let bgcolour := self.bg_color
  let c := toChar signedChar ch
  let font := self.font
  let height := fontAt font H.FONT_HEIGHT
  let bytes := wrapU8 ((height + 7).tdiv 8)
  let firstChar := fontAt font H.FONT_FIRST_CHAR
  let charCount := fontAt font H.FONT_CHAR_COUNT
  if bX ≥ self.width ∨ bY ≥ self.height then (-1, [])
  else if c = 32 then
    let width := wrapU8 (TFT_charWidth H signedChar self 32)
    (width, ili9341_fillRect bX bY (bX + width) (bY + height) bgcolour)
  else if c < firstChar ∨ c ≥ firstChar + charCount then (0, [])
  else
    let c := toChar signedChar (c - firstChar)
    let width := charGlyphWidth H font c
    let index := charGlyphIndex H font c bytes charCount
    if bX < -width ∨ bY < -height then (width, [])
    else (width, charGlyph font bX bY fgcolour bgcolour width height bytes index)

/-- Row offset of row-byte `i` in the words of the spec: `i*8` by default,
`height-8` for the last row-byte when there is more than one row-byte,
`height-7` when `height < 8`. -/
def specRowOffset (height bytes i : Int) : Int :=
  if i = bytes - 1 ∧ bytes > 1 then height - 8
  else if height < 8 then height - 7
  else i * 8

/-- The glyph bit that the spec's row offset mapping shows at column `j`, row
`row` of a glyph: bit `row - offset` of row-byte `row / 8` of the column. -/
def specGlyphBit (font : Font) (index width height bytes : Int) (j row : Nat) : Bool :=
  (fontAt font (index + j + ((row / 8 : Nat) : Int) * width)).toNat.testBit
    ((row : Int) - specRowOffset height bytes ((row / 8 : Nat) : Int)).toNat

/-- The pixel write the spec's mapping gives for column `j`, row `row` of a
glyph drawn at `(bX, bY)`: foreground where the glyph bit is set, background
where it is clear. -/
def specGlyphPixel (font : Font) (bX bY fgcolour bgcolour index width height bytes : Int)
    (j row : Nat) : Pixel :=
  (bX + j, bY + row,
    if specGlyphBit font index width height bytes j row then fgcolour else bgcolour)

/-- Source: `ili9341_drawChar(self, ch, x, y, color)`; an argument the caller
leaves out is `none` (`x`, `y` default to the cursor, `color` to 1). -/
def ili9341_drawChar (H : FontsHeader) (signedChar : Bool) (self : ILI9341PyObject) (ch : Nat)
    (x y color : Option Int) : ILI9341PyObject × List Pixel :=
  let self1 := { self with cursor_x := x.getD self.cursor_x, cursor_y := y.getD self.cursor_y,
                           color := color.getD 1 }
  (self1, (TFT_char H signedChar self1 ch).2)

/-- The `for(i=0; i<strlen(str); i++)` loop of `ili9341_writeString`; `font`
is the local variable set on entry, the list holds the characters from
`str[i]` on. -/
def writeStringLoop (H : FontsHeader) (signedChar : Bool) (font : Font) :
    ILI9341PyObject → List Nat → ILI9341PyObject × List Pixel
  | self, [] => (self, [])
  | self, ch :: rest =>
    let w := TFT_charWidth H signedChar self ch + self.char_spacing
    let px := (TFT_char H signedChar self ch).2
    let self1 :=
      if self.cursor_x + w ≤ self.width then { self with cursor_x := self.cursor_x + w }
      else if self.cursor_y + fontAt font H.FONT_HEIGHT + self.char_spacing ≤ self.height then
        { self with cursor_x := 0,
                    cursor_y := self.cursor_y + fontAt font H.FONT_HEIGHT + self.char_spacing }
      else self
    let r := writeStringLoop H signedChar font self1 rest
    (r.1, px ++ r.2)

/-- Source: `ili9341_writeString(self, str, x, y, color)`; `str` is the list
of the characters in front of the terminating NUL, an argument the caller
leaves out is `none` (`x`, `y`, `color` default to the cursor and the current
colour). -/
def ili9341_writeString (H : FontsHeader) (signedChar : Bool) (self : ILI9341PyObject)
    (str : List Nat) (x y color : Option Int) : ILI9341PyObject × List Pixel :=
  let font := self.font
  let self1 := { self with cursor_x := x.getD self.cursor_x, cursor_y := y.getD self.cursor_y,
                           color := color.getD self.color }
  writeStringLoop H signedChar font self1 str

end ILI9341

/-! ## Theorems -/

namespace ILI9341

/-! ### Machine-integer facts -/

theorem wrap16_of_range (v : Int) (h0 : -32768 ≤ v) (h1 : v ≤ 32767) : wrap16 v = v := by
  unfold wrap16
  omega

theorem wrap16_range (v : Int) : -32768 ≤ wrap16 v ∧ wrap16 v ≤ 32767 := by
  unfold wrap16
  omega

/-! ### Line -/

theorem drawLineOrdered_swap (steep : Bool) (x0 y0 x1 y1 color : Int)
    (h : x0 = x1 → y0 = y1) :
    drawLineOrdered steep x0 y0 x1 y1 color = drawLineOrdered steep x1 y1 x0 y0 color := by
  unfold drawLineOrdered
  rcases lt_trichotomy x0 x1 with hlt | heq | hgt
  · rw [if_neg (by omega), if_pos (by omega)]
  · obtain rfl := h heq
    subst heq
    rfl
  · rw [if_pos (by omega), if_neg (by omega)]

/-- C1. `line(x0,y0,x1,y1,c)` and `line(x1,y1,x0,y0,c)` make the same sequence of
`TFT_setPixel` calls, hence write the same set of pixels. The two conditional
swaps bring both argument orders to the same loop state, so no range
restriction on the coordinates is needed. -/
theorem drawLine_endpoint_reversal (x0 y0 x1 y1 c : Int) :
    ili9341_drawLine x0 y0 x1 y1 c = ili9341_drawLine x1 y1 x0 y0 c ∧
    ∀ p : Pixel, p ∈ ili9341_drawLine x0 y0 x1 y1 c ↔ p ∈ ili9341_drawLine x1 y1 x0 y0 c := by
  have key : ili9341_drawLine x0 y0 x1 y1 c = ili9341_drawLine x1 y1 x0 y0 c := by
    unfold ili9341_drawLine
    have e1 : (y0 - y1).natAbs = (y1 - y0).natAbs := by omega
    have e2 : (x0 - x1).natAbs = (x1 - x0).natAbs := by omega
    simp only [e1, e2]
    by_cases hs : (y1 - y0).natAbs > (x1 - x0).natAbs
    · simp only [hs, decide_True, if_true]
      exact drawLineOrdered_swap _ _ _ _ _ _ (by omega)
    · simp only [hs, decide_False]
      exact drawLineOrdered_swap _ _ _ _ _ _ (by omega)
  exact ⟨key, fun p => by rw [key]⟩

/-- With `dy = 0` and a non-negative error term the loop never leaves its row:
`n` iterations from `x0` write `n` consecutive pixels. -/
theorem drawLineLoop_flat (steep : Bool) (dx ystep c y0 err : Int)
    (he0 : 0 ≤ err) (he1 : err ≤ 32767) :
    ∀ (n : Nat) (x0 : Int),
      drawLineLoop steep dx 0 ystep (x0 + n - 1) c n x0 y0 err
        = (List.range n).map
            (fun (k : Nat) => if steep then ((y0, x0 + (k : Int), c) : Pixel) else (x0 + (k : Int), y0, c)) := by
  intro n
  induction n with
  | zero => intro x0; simp [drawLineLoop]
  | succ n ih =>
    intro x0
    have hw : wrap16 (err - 0) = err := by
      rw [sub_zero]; exact wrap16_of_range _ (by omega) he1
    have hx : x0 ≤ x0 + ((n + 1 : Nat) : Int) - 1 := by push_cast; omega
    have hn : ¬ err < 0 := by omega
    have hx1 : x0 + ((n + 1 : Nat) : Int) - 1 = (x0 + 1) + (n : Int) - 1 := by push_cast; omega
    rw [drawLineLoop, if_pos hx]
    simp only [hw, if_neg hn]
    rw [hx1, ih (x0 + 1), List.range_succ_eq_map, List.map_cons, List.map_map]
    congr 1
    · cases steep <;> simp
    · apply List.map_congr_left
      intro k _
      cases steep <;> simp [Nat.succ_eq_add_one] <;> omega

theorem drawLineBody_flat (steep : Bool) (x0 y0 c : Int) (n : Nat) (hn : n ≤ 32767) :
    drawLineBody steep x0 y0 (x0 + n) y0 c
      = (List.range (n + 1)).map
          (fun (k : Nat) => if steep then ((y0, x0 + (k : Int), c) : Pixel) else (x0 + (k : Int), y0, c)) := by
  unfold drawLineBody
  have hdx : x0 + (n : Int) - x0 = n := by omega
  have hdy : wrap16 (((y0 - y0).natAbs : Nat) : Int) = 0 := by
    rw [sub_self]; rfl
  have hfuel : (x0 + (n : Int) + 1 - x0).toNat = n + 1 := by omega
  have hx1 : x0 + (n : Int) = x0 + ((n + 1 : Nat) : Int) - 1 := by push_cast; omega
  have hw : wrap16 (n : Int) = n := wrap16_of_range _ (by omega) (by omega)
  have htd : (n : Int).tdiv 2 = (n : Int) / 2 := Int.tdiv_eq_ediv (by omega) (by omega)
  have herr : wrap16 ((n : Int) / 2) = (n : Int) / 2 := wrap16_of_range _ (by omega) (by omega)
  simp only [hdx, hdy, hfuel, hw, htd, herr]
  rw [hx1]
  exact drawLineLoop_flat steep _ _ c y0 _ (by omega) (by omega) (n + 1) x0

theorem drawLine_horizontal (x y c : Int) (n : Nat) (hn : n ≤ 32767) :
    ili9341_drawLine x y (x + n) y c
      = (List.range (n + 1)).map (fun (i : Nat) => ((x + (i : Int), y, c) : Pixel)) := by
  unfold ili9341_drawLine
  have hs : ¬ ((y - y).natAbs > (x + (n : Int) - x).natAbs) := by
    rw [sub_self]; simp
  simp only [hs, decide_False]
  unfold drawLineOrdered
  have hle : ¬ (x > x + (n : Int)) := by omega
  simp only [hle, if_false, Bool.false_eq_true]
  rw [drawLineBody_flat false x y c n hn]
  simp

theorem drawLine_vertical (x y c : Int) (n : Nat) (hn : n ≤ 32767) :
    ili9341_drawLine x y x (y + n) c
      = (List.range (n + 1)).map (fun (j : Nat) => ((x, y + (j : Int), c) : Pixel)) := by
  unfold ili9341_drawLine
  rcases Nat.eq_zero_or_pos n with h0 | hpos
  · subst h0
    have hs : ¬ ((y + ((0 : Nat) : Int) - y).natAbs > (x - x).natAbs) := by
      rw [sub_self]; simp
    simp only [hs, decide_False]
    unfold drawLineOrdered
    have hle : ¬ (x > x) := by omega
    simp only [hle, if_false, Bool.false_eq_true]
    have e : y + ((0 : Nat) : Int) = y := by simp
    rw [e]
    have hb := drawLineBody_flat false x y c 0 (by omega)
    simp only [Nat.cast_zero, add_zero] at hb
    rw [hb]
    simp
  · have hs : (y + (n : Int) - y).natAbs > (x - x).natAbs := by
      have e : y + (n : Int) - y = n := by omega
      rw [e, sub_self]; simp only [Int.natAbs_zero, Int.natAbs_ofNat]; omega
    simp only [hs, decide_True, if_true]
    unfold drawLineOrdered
    have hle : ¬ (y > y + (n : Int)) := by omega
    simp only [hle, if_false]
    rw [drawLineBody_flat true y x c n hn]
    simp

theorem drawFastHLine_eq (x y w c : Int) (hw : 1 ≤ w) (hw16 : w ≤ 32768) :
    ili9341_drawFastHLine x y w c
      = (List.range w.toNat).map (fun (i : Nat) => ((x + (i : Int), y, c) : Pixel)) := by
  unfold ili9341_drawFastHLine
  obtain ⟨n, rfl⟩ : ∃ n : Nat, w = (n : Int) + 1 := ⟨(w - 1).toNat, by omega⟩
  have e : x + ((n : Int) + 1) - 1 = x + (n : Int) := by omega
  have e2 : ((n : Int) + 1).toNat = n + 1 := by omega
  rw [e, e2]
  exact drawLine_horizontal x y c n (by omega)

theorem drawFastVLine_eq (x y h c : Int) (hh : 1 ≤ h) (hh16 : h ≤ 32768) :
    ili9341_drawFastVLine x y h c
      = (List.range h.toNat).map (fun (j : Nat) => ((x, y + (j : Int), c) : Pixel)) := by
  unfold ili9341_drawFastVLine
  obtain ⟨n, rfl⟩ : ∃ n : Nat, h = (n : Int) + 1 := ⟨(h - 1).toNat, by omega⟩
  have e : y + ((n : Int) + 1) - 1 = y + (n : Int) := by omega
  have e2 : ((n : Int) + 1).toNat = n + 1 := by omega
  rw [e, e2]
  exact drawLine_vertical x y c n (by omega)

/-! ### Counting writes in runs of pixels -/

theorem count_hrun (x y c : Int) (p : Pixel) (n : Nat) :
    ((List.range n).map (fun (i : Nat) => ((x + (i : Int), y, c) : Pixel))).count p
      = if x ≤ p.1 ∧ p.1 < x + n ∧ p.2.1 = y ∧ p.2.2 = c then 1 else 0 := by
  obtain ⟨a, b, d⟩ := p
  induction n with
  | zero =>
    have : ¬ (x ≤ a ∧ a < x + ((0 : Nat) : Int) ∧ b = y ∧ d = c) := by
      rintro ⟨h1, h2, -, -⟩; simp at h2; omega
    simp only [List.range_zero, List.map_nil, List.count_nil, this, if_false]
  | succ n ih =>
    rw [List.range_succ, List.map_append, List.count_append, ih]
    simp only [List.map_cons, List.map_nil, List.count_cons, List.count_nil, zero_add,
      beq_iff_eq, Prod.mk.injEq]
    push_cast
    split_ifs <;> omega

theorem count_vrun (x y c : Int) (p : Pixel) (n : Nat) :
    ((List.range n).map (fun (j : Nat) => ((x, y + (j : Int), c) : Pixel))).count p
      = if p.1 = x ∧ y ≤ p.2.1 ∧ p.2.1 < y + n ∧ p.2.2 = c then 1 else 0 := by
  obtain ⟨a, b, d⟩ := p
  induction n with
  | zero =>
    have : ¬ (a = x ∧ y ≤ b ∧ b < y + ((0 : Nat) : Int) ∧ d = c) := by
      rintro ⟨-, h1, h2, -⟩; simp at h2; omega
    simp only [List.range_zero, List.map_nil, List.count_nil, this, if_false]
  | succ n ih =>
    rw [List.range_succ, List.map_append, List.count_append, ih]
    simp only [List.map_cons, List.map_nil, List.count_cons, List.count_nil, zero_add,
      beq_iff_eq, Prod.mk.injEq]
    push_cast
    split_ifs <;> omega

theorem count_box (x y c : Int) (p : Pixel) (n : Nat) (m : Nat) :
    ((List.range m).flatMap (fun (i : Nat) =>
        (List.range n).map (fun (j : Nat) => ((x + (i : Int), y + (j : Int), c) : Pixel)))).count p
      = if x ≤ p.1 ∧ p.1 < x + m ∧ y ≤ p.2.1 ∧ p.2.1 < y + n ∧ p.2.2 = c then 1 else 0 := by
  induction m with
  | zero =>
    have : ¬ (x ≤ p.1 ∧ p.1 < x + ((0 : Nat) : Int) ∧ y ≤ p.2.1 ∧ p.2.1 < y + n ∧ p.2.2 = c) := by
      rintro ⟨h1, h2, -⟩; simp at h2; omega
    simp only [List.range_zero, List.flatMap_nil, List.count_nil, this, if_false]
  | succ m ih =>
    rw [List.range_succ, List.flatMap_append, List.count_append, ih]
    simp only [List.flatMap_cons, List.flatMap_nil, List.append_nil]
    rw [count_vrun]
    push_cast
    split_ifs <;> omega

theorem length_box (x y c : Int) (n : Nat) (m : Nat) :
    ((List.range m).flatMap (fun (i : Nat) =>
        (List.range n).map (fun (j : Nat) => ((x + (i : Int), y + (j : Int), c) : Pixel)))).length
      = m * n := by
  induction m with
  | zero => simp
  | succ m ih =>
    rw [List.range_succ, List.flatMap_append, List.length_append, ih]
    simp [Nat.succ_mul]

/-! ### Filled rectangle -/

theorem fillRectLoop_eq (y h c : Int) (hh : 1 ≤ h) (hh16 : h ≤ 32768) :
    ∀ (n : Nat) (i : Int),
      fillRectLoop y h c (i + n) n i
        = (List.range n).flatMap (fun (k : Nat) =>
            (List.range h.toNat).map (fun (j : Nat) => ((i + (k : Int), y + (j : Int), c) : Pixel))) := by
  intro n
  induction n with
  | zero => intro i; simp [fillRectLoop]
  | succ n ih =>
    intro i
    have hlt : i < i + ((n + 1 : Nat) : Int) := by push_cast; omega
    have e : i + ((n + 1 : Nat) : Int) = (i + 1) + (n : Int) := by push_cast; omega
    rw [fillRectLoop, if_pos hlt, e, ih (i + 1), drawFastVLine_eq i y h c hh hh16,
      List.range_succ_eq_map, List.flatMap_cons, List.flatMap_map]
    congr 1
    · simp
    · apply List.flatMap_congr
      intro k _
      apply List.map_congr_left
      intro j _
      simp only [Nat.succ_eq_add_one, Nat.cast_add, Nat.cast_one, Prod.mk.injEq, and_true, true_and]
      omega

theorem fillRect_eq (x y w h c : Int) (hh : 1 ≤ h) (hh16 : h ≤ 32768) :
    ili9341_fillRect x y w h c
      = (List.range w.toNat).flatMap (fun (i : Nat) =>
          (List.range h.toNat).map (fun (j : Nat) => ((x + (i : Int), y + (j : Int), c) : Pixel))) := by
  unfold ili9341_fillRect
  have e : x + w - x = w := by omega
  rw [e]
  rcases le_or_lt w 0 with hw | hw
  · have e0 : w.toNat = 0 := by omega
    rw [e0]
    simp [fillRectLoop]
  · have e1 : x + w = x + (w.toNat : Int) := by omega
    rw [e1]
    exact fillRectLoop_eq y h c hh hh16 w.toNat x

/-- Once the 16-bit `dx` has wrapped to `-32768` the error term starts negative
and the second pixel of a flat line already leaves its row. -/
theorem drawLineLoop_wrapped (steep : Bool) (x1 c x0 y0 : Int) (n : Nat) (h : x0 + 1 ≤ x1) :
    drawLineLoop steep (-32768) 0 (-1) x1 c (n + 2) x0 y0 (-16384)
      = (if steep then ((y0, x0, c) : Pixel) else (x0, y0, c))
        :: (if steep then ((y0 + -1, x0 + 1, c) : Pixel) else (x0 + 1, y0 + -1, c))
        :: drawLineLoop steep (-32768) 0 (-1) x1 c n (x0 + 1 + 1) (y0 + -1) 16384 := by
  have h0 : x0 ≤ x1 := by omega
  have w1 : wrap16 (-16384 - 0) = -16384 := by decide
  have w2 : wrap16 (-16384 + -32768) = 16384 := by decide
  have w3 : wrap16 (16384 - 0) = 16384 := by decide
  have n1 : (-16384 : Int) < 0 := by decide
  have n2 : ¬ (16384 : Int) < 0 := by decide
  rw [drawLineLoop, if_pos h0]
  simp only [w1, w2, if_pos n1]
  rw [drawLineLoop, if_pos h]
  simp only [w3, if_neg n2]

/-- C2, amended. For `w ≥ 1` and `1 ≤ h ≤ 32768` (so that `h - 1` fits the
`int16_t` variable `dx` of the line loop) `rectFilled(x,y,w,h,c)` makes `w*h`
calls of `TFT_setPixel`: exactly one, in colour `c`, for each `(i,j)` with
`x ≤ i < x+w`, `y ≤ j < y+h`, and none for any other coordinate or colour. -/
theorem fillRect_writes_box (x y w h c : Int) (hw : 1 ≤ w) (hh : 1 ≤ h) (hh16 : h ≤ 32768) :
    ((ili9341_fillRect x y w h c).length : Int) = w * h ∧
    ∀ p : Pixel, (ili9341_fillRect x y w h c).count p
      = if x ≤ p.1 ∧ p.1 < x + w ∧ y ≤ p.2.1 ∧ p.2.1 < y + h ∧ p.2.2 = c then 1 else 0 := by
  rw [fillRect_eq x y w h c hh hh16]
  constructor
  · rw [length_box]
    push_cast
    rw [Int.toNat_of_nonneg (by omega), Int.toNat_of_nonneg (by omega)]
  · intro p
    rw [count_box]
    have e1 : ((w.toNat : Nat) : Int) = w := Int.toNat_of_nonneg (by omega)
    have e2 : ((h.toNat : Nat) : Int) = h := Int.toNat_of_nonneg (by omega)
    rw [e1, e2]

theorem fillRect_writes_box_witness :
    (1 : Int) ≤ 2 ∧ (1 : Int) ≤ 3 ∧ (3 : Int) ≤ 32768 ∧
    ((ili9341_fillRect 10 20 2 3 7).length : Int) = 2 * 3 ∧
    (ili9341_fillRect 10 20 2 3 7).count (11, 22, 7) = 1 ∧
    (ili9341_fillRect 10 20 2 3 7).count (12, 22, 7) = 0 :=
  ⟨by decide, by decide, by decide,
   (fillRect_writes_box 10 20 2 3 7 (by decide) (by decide) (by decide)).1,
   by rw [(fillRect_writes_box 10 20 2 3 7 (by decide) (by decide) (by decide)).2]; decide,
   by rw [(fillRect_writes_box 10 20 2 3 7 (by decide) (by decide) (by decide)).2]; decide⟩

/-- C2 as stated fails for a height whose `h - 1` does not fit `int16_t`:
`rectFilled(0,0,1,32769,5)` writes `(-1, 1)`, which lies outside the
rectangle `[0,1) × [0,32769)`. -/
theorem fillRect_height_overflow :
    ¬ (∀ p ∈ ili9341_fillRect 0 0 1 32769 5,
        (0 : Int) ≤ p.1 ∧ p.1 < 0 + 1 ∧ (0 : Int) ≤ p.2.1 ∧ p.2.1 < 0 + 32769) := by
  intro hall
  have hline : ili9341_drawLine 0 0 0 (0 + 32769 - 1) 5
      = drawLineLoop true (-32768) 0 (-1) (0 + 32769 - 1) 5 (32767 + 2) 0 0 (-16384) := by
    have hs : ((0 : Int) + 32769 - 1 - 0).natAbs > ((0 : Int) - 0).natAbs := by decide
    have hfuel : ((0 : Int) + 32769 - 1 + 1 - 0).toNat = 32767 + 2 := by decide
    have hdx : wrap16 ((0 : Int) + 32769 - 1 - 0) = -32768 := by decide
    have hdy : wrap16 ((((0 : Int) - 0).natAbs : Nat) : Int) = 0 := by decide
    have herr : wrap16 ((-32768 : Int).tdiv 2) = -16384 := by decide
    have hgt : ¬ ((0 : Int) > 0 + 32769 - 1) := by decide
    have hy : (if (0 : Int) < 0 then (1 : Int) else -1) = -1 := by decide
    unfold ili9341_drawLine
    simp only [hs, decide_True, if_true]
    unfold drawLineOrdered
    rw [if_neg hgt]
    unfold drawLineBody
    simp only [hdx, hdy, herr, hfuel, hy]
  have hrect : ili9341_fillRect 0 0 1 32769 5 = ili9341_drawFastVLine 0 0 32769 5 ++ [] := by
    have hf : ((0 : Int) + 1 - 0).toNat = 0 + 1 := by decide
    have hlt : (0 : Int) < 0 + 1 := by decide
    unfold ili9341_fillRect
    rw [hf, fillRectLoop, if_pos hlt]
    rfl
  have hmem : ((-1, 1, 5) : Pixel) ∈ ili9341_fillRect 0 0 1 32769 5 := by
    rw [hrect, List.append_nil]
    unfold ili9341_drawFastVLine
    rw [hline, drawLineLoop_wrapped true _ _ _ _ _ (by decide)]
    simp
  exact absurd (hall _ hmem).1 (by decide)

/-! ### Rectangle outline -/

/-- C3, amended. For `2 ≤ w ≤ 32768` and `2 ≤ h ≤ 32768` (so that `w - 1` and
`h - 1` fit the `int16_t` variable `dx` of the line loop) `rect(x,y,w,h,c)` is
four fast-line calls, two horizontal of `w` pixels (rows `y` and `y+h-1`) and
two vertical of `h` pixels (columns `x` and `x+w-1`); that is `2w+2h` writes, all
in colour `c`: two for each corner, one for every other border pixel, none for
an interior or outside pixel. -/
theorem drawRect_border (x y w h c : Int)
    (hw : 2 ≤ w) (hw16 : w ≤ 32768) (hh : 2 ≤ h) (hh16 : h ≤ 32768) :
    ili9341_drawRect x y w h c
        = ili9341_drawFastHLine x y w c ++ ili9341_drawFastHLine x (y + h - 1) w c
          ++ ili9341_drawFastVLine x y h c ++ ili9341_drawFastVLine (x + w - 1) y h c ∧
    ili9341_drawFastHLine x y w c
        = (List.range w.toNat).map (fun (i : Nat) => ((x + (i : Int), y, c) : Pixel)) ∧
    ili9341_drawFastHLine x (y + h - 1) w c
        = (List.range w.toNat).map (fun (i : Nat) => ((x + (i : Int), y + h - 1, c) : Pixel)) ∧
    ili9341_drawFastVLine x y h c
        = (List.range h.toNat).map (fun (j : Nat) => ((x, y + (j : Int), c) : Pixel)) ∧
    ili9341_drawFastVLine (x + w - 1) y h c
        = (List.range h.toNat).map (fun (j : Nat) => ((x + w - 1, y + (j : Int), c) : Pixel)) ∧
    ((ili9341_drawRect x y w h c).length : Int) = 2 * w + 2 * h ∧
    ∀ p : Pixel, (ili9341_drawRect x y w h c).count p
      = if p.2.2 = c ∧ x ≤ p.1 ∧ p.1 < x + w ∧ y ≤ p.2.1 ∧ p.2.1 < y + h then
          (if (p.1 = x ∨ p.1 = x + w - 1) ∧ (p.2.1 = y ∨ p.2.1 = y + h - 1) then 2
           else if p.1 = x ∨ p.1 = x + w - 1 ∨ p.2.1 = y ∨ p.2.1 = y + h - 1 then 1
           else 0)
        else 0 := by
  have h1 := drawFastHLine_eq x y w c (by omega) hw16
  have h2 := drawFastHLine_eq x (y + h - 1) w c (by omega) hw16
  have h3 := drawFastVLine_eq x y h c (by omega) hh16
  have h4 := drawFastVLine_eq (x + w - 1) y h c (by omega) hh16
  have e1 : ((w.toNat : Nat) : Int) = w := Int.toNat_of_nonneg (by omega)
  have e2 : ((h.toNat : Nat) : Int) = h := Int.toNat_of_nonneg (by omega)
  refine ⟨rfl, h1, h2, h3, h4, ?_, ?_⟩
  · unfold ili9341_drawRect
    rw [h1, h2, h3, h4]
    simp only [List.length_append, List.length_map, List.length_range]
    push_cast
    rw [e1, e2]
    ring
  · intro p
    unfold ili9341_drawRect
    rw [h1, h2, h3, h4]
    simp only [List.count_append]
    rw [count_hrun, count_hrun, count_vrun, count_vrun, e1, e2]
    split_ifs <;> omega

theorem drawRect_border_witness :
    (2 : Int) ≤ 3 ∧ (3 : Int) ≤ 32768 ∧ (2 : Int) ≤ 4 ∧ (4 : Int) ≤ 32768 ∧
    ((ili9341_drawRect 10 20 3 4 7).length : Int) = 2 * 3 + 2 * 4 ∧
    (ili9341_drawRect 10 20 3 4 7).count (12, 23, 7) = 2 ∧
    (ili9341_drawRect 10 20 3 4 7).count (11, 20, 7) = 1 ∧
    (ili9341_drawRect 10 20 3 4 7).count (11, 21, 7) = 0 :=
  ⟨by decide, by decide, by decide, by decide,
   (drawRect_border 10 20 3 4 7 (by decide) (by decide) (by decide) (by decide)).2.2.2.2.2.1,
   by rw [(drawRect_border 10 20 3 4 7 (by decide) (by decide) (by decide)
        (by decide)).2.2.2.2.2.2]; decide,
   by rw [(drawRect_border 10 20 3 4 7 (by decide) (by decide) (by decide)
        (by decide)).2.2.2.2.2.2]; decide,
   by rw [(drawRect_border 10 20 3 4 7 (by decide) (by decide) (by decide)
        (by decide)).2.2.2.2.2.2]; decide⟩

/-- C3 as stated fails for a width whose `w - 1` does not fit `int16_t`:
`rect(0,0,32769,2,5)` writes `(1, -1)`, which lies outside the rectangle
`[0,32769) × [0,2)`. -/
theorem drawRect_width_overflow :
    ¬ (∀ p ∈ ili9341_drawRect 0 0 32769 2 5,
        (0 : Int) ≤ p.1 ∧ p.1 < 0 + 32769 ∧ (0 : Int) ≤ p.2.1 ∧ p.2.1 < 0 + 2) := by
  intro hall
  have hline : ili9341_drawLine 0 0 (0 + 32769 - 1) 0 5
      = drawLineLoop false (-32768) 0 (-1) (0 + 32769 - 1) 5 (32767 + 2) 0 0 (-16384) := by
    have hs : ¬ (((0 : Int) - 0).natAbs > ((0 : Int) + 32769 - 1 - 0).natAbs) := by decide
    have hfuel : ((0 : Int) + 32769 - 1 + 1 - 0).toNat = 32767 + 2 := by decide
    have hdx : wrap16 ((0 : Int) + 32769 - 1 - 0) = -32768 := by decide
    have hdy : wrap16 ((((0 : Int) - 0).natAbs : Nat) : Int) = 0 := by decide
    have herr : wrap16 ((-32768 : Int).tdiv 2) = -16384 := by decide
    have hgt : ¬ ((0 : Int) > 0 + 32769 - 1) := by decide
    have hy : (if (0 : Int) < 0 then (1 : Int) else -1) = -1 := by decide
    unfold ili9341_drawLine
    simp only [hs, decide_False]
    unfold drawLineOrdered
    simp only [hgt, if_false, Bool.false_eq_true]
    unfold drawLineBody
    simp only [hdx, hdy, herr, hfuel, hy]
  have hmem : ((1, -1, 5) : Pixel) ∈ ili9341_drawRect 0 0 32769 2 5 := by
    unfold ili9341_drawRect
    apply List.mem_append_left
    apply List.mem_append_left
    apply List.mem_append_left
    unfold ili9341_drawFastHLine
    rw [hline, drawLineLoop_wrapped false _ _ _ _ _ (by decide)]
    simp
  exact absurd (hall _ hmem).2.2.1 (by decide)

/-! ### The iteration bounds are exact

Both loops are embedded with an iteration bound. The bound handed over by the
caller is never the reason a loop stops: any two bounds of at least that size
give the same calls. -/

theorem drawLineLoop_fuel (steep : Bool) (dx dy ystep x1 c : Int) :
    ∀ (n m : Nat) (x0 y0 err : Int),
      (x1 + 1 - x0).toNat ≤ n → (x1 + 1 - x0).toNat ≤ m →
      drawLineLoop steep dx dy ystep x1 c n x0 y0 err
        = drawLineLoop steep dx dy ystep x1 c m x0 y0 err := by
  intro n
  induction n with
  | zero =>
    intro m x0 y0 err hn _
    have hx : ¬ x0 ≤ x1 := by omega
    cases m with
    | zero => rfl
    | succ m => rw [drawLineLoop, drawLineLoop, if_neg hx]
  | succ n ih =>
    intro m x0 y0 err hn hm
    by_cases hx : x0 ≤ x1
    · cases m with
      | zero => omega
      | succ m =>
        rw [drawLineLoop, drawLineLoop, if_pos hx, if_pos hx]
        have h1 : (x1 + 1 - (x0 + 1)).toNat ≤ n := by omega
        have h2 : (x1 + 1 - (x0 + 1)).toNat ≤ m := by omega
        simp only [ih m (x0 + 1) _ _ h1 h2]
    · cases m with
      | zero => rw [drawLineLoop, drawLineLoop, if_neg hx]
      | succ m => rw [drawLineLoop, drawLineLoop, if_neg hx, if_neg hx]

theorem drawCircleLoop_fuel (x0 y0 c : Int) :
    ∀ (n m : Nat) (f ddF_x ddF_y x y : Int),
      -32768 ≤ x → y ≤ 32767 → (y - x).toNat ≤ n → (y - x).toNat ≤ m →
      drawCircleLoop x0 y0 c n f ddF_x ddF_y x y
        = drawCircleLoop x0 y0 c m f ddF_x ddF_y x y := by
  intro n
  induction n with
  | zero =>
    intro m f ddF_x ddF_y x y _ _ hn _
    have hx : ¬ x < y := by omega
    cases m with
    | zero => rfl
    | succ m => rw [drawCircleLoop, drawCircleLoop, if_neg hx]
  | succ n ih =>
    intro m f ddF_x ddF_y x y hxlo hyhi hn hm
    by_cases hx : x < y
    · cases m with
      | zero => omega
      | succ m =>
        rw [drawCircleLoop, drawCircleLoop, if_pos hx, if_pos hx]
        have hx1 : wrap16 (x + 1) = x + 1 := wrap16_of_range _ (by omega) (by omega)
        have hy1 : wrap16 (y - 1) = y - 1 := wrap16_of_range _ (by omega) (by omega)
        have hy2 : (if f ≥ 0 then wrap16 (y - 1) else y) ≤ y := by
          split_ifs <;> omega
        have h1 : ((if f ≥ 0 then wrap16 (y - 1) else y) - wrap16 (x + 1)).toNat ≤ n := by
          rw [hx1]; omega
        have h2 : ((if f ≥ 0 then wrap16 (y - 1) else y) - wrap16 (x + 1)).toNat ≤ m := by
          rw [hx1]; omega
        simp only [ih m _ _ _ _ _ (wrap16_range _).1 (le_trans hy2 hyhi) h1 h2]
    · cases m with
      | zero => rw [drawCircleLoop, drawCircleLoop, if_neg hx]
      | succ m => rw [drawCircleLoop, drawCircleLoop, if_neg hx, if_neg hx]

/-! ### Circle -/

theorem mem_circleOctants (x0 y0 x y c px py col : Int) :
    ((px, py, col) : Pixel) ∈ circleOctants x0 y0 x y c ↔
      col = c ∧ (((px = x0 + x ∨ px = x0 - x) ∧ (py = y0 + y ∨ py = y0 - y))
        ∨ ((px = x0 + y ∨ px = x0 - y) ∧ (py = y0 + x ∨ py = y0 - x))) := by
  simp only [circleOctants, List.mem_cons, Prod.mk.injEq, List.mem_nil_iff, or_false]
  constructor
  · rintro (⟨h1, h2, h3⟩ | ⟨h1, h2, h3⟩ | ⟨h1, h2, h3⟩ | ⟨h1, h2, h3⟩ | ⟨h1, h2, h3⟩
      | ⟨h1, h2, h3⟩ | ⟨h1, h2, h3⟩ | ⟨h1, h2, h3⟩)
    · exact ⟨h3, Or.inl ⟨Or.inl h1, Or.inl h2⟩⟩
    · exact ⟨h3, Or.inl ⟨Or.inr h1, Or.inl h2⟩⟩
    · exact ⟨h3, Or.inl ⟨Or.inl h1, Or.inr h2⟩⟩
    · exact ⟨h3, Or.inl ⟨Or.inr h1, Or.inr h2⟩⟩
    · exact ⟨h3, Or.inr ⟨Or.inl h1, Or.inl h2⟩⟩
    · exact ⟨h3, Or.inr ⟨Or.inr h1, Or.inl h2⟩⟩
    · exact ⟨h3, Or.inr ⟨Or.inl h1, Or.inr h2⟩⟩
    · exact ⟨h3, Or.inr ⟨Or.inr h1, Or.inr h2⟩⟩
  · rintro ⟨hc, ⟨ha | ha, hb | hb⟩ | ⟨ha | ha, hb | hb⟩⟩ <;> simp [ha, hb, hc]

theorem mem_circleAxes (x0 y0 r c px py col : Int) :
    ((px, py, col) : Pixel) ∈
        [((x0, y0 + r, c) : Pixel), (x0, y0 - r, c), (x0 + r, y0, c), (x0 - r, y0, c)] ↔
      col = c ∧ ((px = x0 ∧ (py = y0 + r ∨ py = y0 - r))
        ∨ ((px = x0 + r ∨ px = x0 - r) ∧ py = y0)) := by
  simp only [List.mem_cons, Prod.mk.injEq, List.mem_nil_iff, or_false]
  constructor
  · rintro (⟨h1, h2, h3⟩ | ⟨h1, h2, h3⟩ | ⟨h1, h2, h3⟩ | ⟨h1, h2, h3⟩)
    · exact ⟨h3, Or.inl ⟨h1, Or.inl h2⟩⟩
    · exact ⟨h3, Or.inl ⟨h1, Or.inr h2⟩⟩
    · exact ⟨h3, Or.inr ⟨Or.inl h1, h2⟩⟩
    · exact ⟨h3, Or.inr ⟨Or.inr h1, h2⟩⟩
  · rintro ⟨hc, ⟨ha, hb | hb⟩ | ⟨ha | ha, hb⟩⟩ <;> simp [ha, hb, hc]

theorem circleOctants_reflect_x (x0 y0 x y c a b col : Int) :
    ((x0 + a, y0 + b, col) : Pixel) ∈ circleOctants x0 y0 x y c ↔
      ((x0 - a, y0 + b, col) : Pixel) ∈ circleOctants x0 y0 x y c := by
  have e1 : (x0 + a = x0 + x ∨ x0 + a = x0 - x) ↔ (x0 - a = x0 + x ∨ x0 - a = x0 - x) := by
    constructor <;> intro h <;> omega
  have e2 : (x0 + a = x0 + y ∨ x0 + a = x0 - y) ↔ (x0 - a = x0 + y ∨ x0 - a = x0 - y) := by
    constructor <;> intro h <;> omega
  rw [mem_circleOctants, mem_circleOctants, e1, e2]

theorem circleOctants_reflect_y (x0 y0 x y c a b col : Int) :
    ((x0 + a, y0 + b, col) : Pixel) ∈ circleOctants x0 y0 x y c ↔
      ((x0 + a, y0 - b, col) : Pixel) ∈ circleOctants x0 y0 x y c := by
  have e1 : (y0 + b = y0 + x ∨ y0 + b = y0 - x) ↔ (y0 - b = y0 + x ∨ y0 - b = y0 - x) := by
    constructor <;> intro h <;> omega
  have e2 : (y0 + b = y0 + y ∨ y0 + b = y0 - y) ↔ (y0 - b = y0 + y ∨ y0 - b = y0 - y) := by
    constructor <;> intro h <;> omega
  rw [mem_circleOctants, mem_circleOctants, e1, e2]

theorem drawCircleLoop_reflect_x (x0 y0 c a b col : Int) :
    ∀ (fuel : Nat) (f ddF_x ddF_y x y : Int),
      ((x0 + a, y0 + b, col) : Pixel) ∈ drawCircleLoop x0 y0 c fuel f ddF_x ddF_y x y ↔
        ((x0 - a, y0 + b, col) : Pixel) ∈ drawCircleLoop x0 y0 c fuel f ddF_x ddF_y x y := by
  intro fuel
  induction fuel with
  | zero => intro f ddF_x ddF_y x y; simp [drawCircleLoop]
  | succ n ih =>
    intro f ddF_x ddF_y x y
    rw [drawCircleLoop]
    by_cases hxy : x < y
    · simp only [if_pos hxy, List.mem_append]
      rw [circleOctants_reflect_x, ih]
    · simp only [if_neg hxy, List.not_mem_nil]

theorem drawCircleLoop_reflect_y (x0 y0 c a b col : Int) :
    ∀ (fuel : Nat) (f ddF_x ddF_y x y : Int),
      ((x0 + a, y0 + b, col) : Pixel) ∈ drawCircleLoop x0 y0 c fuel f ddF_x ddF_y x y ↔
        ((x0 + a, y0 - b, col) : Pixel) ∈ drawCircleLoop x0 y0 c fuel f ddF_x ddF_y x y := by
  intro fuel
  induction fuel with
  | zero => intro f ddF_x ddF_y x y; simp [drawCircleLoop]
  | succ n ih =>
    intro f ddF_x ddF_y x y
    rw [drawCircleLoop]
    by_cases hxy : x < y
    · simp only [if_pos hxy, List.mem_append]
      rw [circleOctants_reflect_y, ih]
    · simp only [if_neg hxy, List.not_mem_nil]

/-- C4. The set of pixels written by `circle(x0,y0,r,c)` is invariant under
reflection across the vertical axis through `x0` and across the horizontal
axis through `y0`: `(x0+a, y0+b)` is written iff `(x0-a, y0+b)` is written iff
`(x0+a, y0-b)` is written. This holds for every radius, in particular for
every `r > 0` in 16-bit range. -/
theorem drawCircle_reflection (x0 y0 r c a b col : Int) :
    (((x0 + a, y0 + b, col) : Pixel) ∈ ili9341_drawCircle x0 y0 r c ↔
      ((x0 - a, y0 + b, col) : Pixel) ∈ ili9341_drawCircle x0 y0 r c) ∧
    (((x0 + a, y0 + b, col) : Pixel) ∈ ili9341_drawCircle x0 y0 r c ↔
      ((x0 + a, y0 - b, col) : Pixel) ∈ ili9341_drawCircle x0 y0 r c) := by
  have ex : (x0 + a = x0 + r ∨ x0 + a = x0 - r) ↔ (x0 - a = x0 + r ∨ x0 - a = x0 - r) := by
    constructor <;> intro h <;> omega
  have ex0 : x0 + a = x0 ↔ x0 - a = x0 := by
    constructor <;> intro h <;> omega
  have ey : (y0 + b = y0 + r ∨ y0 + b = y0 - r) ↔ (y0 - b = y0 + r ∨ y0 - b = y0 - r) := by
    constructor <;> intro h <;> omega
  have ey0 : y0 + b = y0 ↔ y0 - b = y0 := by
    constructor <;> intro h <;> omega
  unfold ili9341_drawCircle
  simp only [List.mem_append]
  constructor
  · rw [drawCircleLoop_reflect_x, mem_circleAxes, mem_circleAxes, ex, ex0]
  · rw [drawCircleLoop_reflect_y, mem_circleAxes, mem_circleAxes, ey, ey0]

/-! ### Colour packing -/

/-- C5. For all integers `r`, `g`, `b` the packed colour is a 16-bit value,
`rgb(0,0,0) = 0` and `rgb(31,63,31) = 0xFFFF`. -/
theorem rgb2color_range (R G B : Int) :
    0 ≤ TFT_rgb2color R G B ∧ TFT_rgb2color R G B ≤ 0xFFFF ∧
    TFT_rgb2color 0 0 0 = 0 ∧ TFT_rgb2color 31 63 31 = 0xFFFF := by
  refine ⟨?_, ?_, by decide, by decide⟩
  · unfold TFT_rgb2color
    exact Int.ofNat_nonneg _
  · unfold TFT_rgb2color
    have hr : toU32 R &&& 0x1F ≤ 0x1F := Nat.and_le_right
    have hg : toU32 G &&& 0x3F ≤ 0x3F := Nat.and_le_right
    have hb : toU32 B &&& 0x1F ≤ 0x1F := Nat.and_le_right
    have h1 : (toU32 R &&& 0x1F) <<< 6 < 2 ^ 11 := by
      rw [Nat.shiftLeft_eq]; omega
    have h2 : ((toU32 R &&& 0x1F) <<< 6 ||| (toU32 G &&& 0x3F)) < 2 ^ 11 :=
      Nat.or_lt_two_pow h1 (by omega)
    have h3 : ((toU32 R &&& 0x1F) <<< 6 ||| (toU32 G &&& 0x3F)) <<< 5 < 2 ^ 16 := by
      rw [Nat.shiftLeft_eq]; omega
    have h4 : (((toU32 R &&& 0x1F) <<< 6 ||| (toU32 G &&& 0x3F)) <<< 5
        ||| (toU32 B &&& 0x1F)) < 2 ^ 16 :=
      Nat.or_lt_two_pow h3 (by omega)
    simp only []
    omega

/-! ### Pixel addressing -/

theorem toByte_shiftRight (v : Int) (h0 : 0 ≤ v) (h1 : v ≤ 0xFFFF) :
    toByte (v >>> (8 : Nat)) = hiByte v := by
  unfold toByte hiByte
  rw [Int.shiftRight_eq_div_pow]
  have : (((2 ^ 8 : Nat)) : Int) = 256 := by norm_num
  rw [this]
  congr 1
  omega

theorem toByte_mask (v : Int) (h0 : 0 ≤ v) (h1 : v ≤ 0xFFFF) :
    toByte ((toU32 v &&& 0x00ff : Nat) : Int) = loByte v := by
  unfold toByte loByte toU32
  have e : (255 : Nat) = 2 ^ 8 - 1 := by norm_num
  rw [e, Nat.and_pow_two_sub_one_eq_mod]
  omega

theorem transfers_sendWord (d : Bool) (v : Int) (h0 : 0 ≤ v) (h1 : v ≤ 0xFFFF) (rest : List Ev) :
    transfers d (TFT_sendWord v ++ rest)
      = Xfer.data (hiByte v) :: Xfer.data (loByte v) :: transfers true rest := by
  unfold TFT_sendWord TFT_sendByte
  rw [toByte_shiftRight v h0 h1, toByte_mask v h0 h1]
  simp [transfers, Xfer.data]

theorem transfers_sendCMD (d : Bool) (v : Int) (rest : List Ev) :
    transfers d (TFT_sendCMD v ++ rest) = Xfer.cmd (toByte v) :: transfers false rest := by
  simp [TFT_sendCMD, TFT_sendByte, transfers, Xfer.cmd]

/-- C6. For `x`, `y`, `colour` in `0..0xFFFF`, whatever the D/C level before
the call, `writePixel(x,y,colour)` puts exactly these 13 single-byte transfers
on the bus, in order: command 0x2A, data hi(x), lo(x), hi(x), lo(x); command
0x2B, data hi(y), lo(y), hi(y), lo(y); command 0x2C; data hi(colour),
lo(colour); and `hi*256+lo` is the word, both bytes below 256. -/
theorem setPixel_bus_sequence (d : Bool) (x y colour : Int)
    (hx : 0 ≤ x ∧ x ≤ 0xFFFF) (hy : 0 ≤ y ∧ y ≤ 0xFFFF) (hc : 0 ≤ colour ∧ colour ≤ 0xFFFF) :
    transfers d (TFT_setPixel x y colour)
      = [Xfer.cmd 0x2A, Xfer.data (hiByte x), Xfer.data (loByte x),
           Xfer.data (hiByte x), Xfer.data (loByte x),
         Xfer.cmd 0x2B, Xfer.data (hiByte y), Xfer.data (loByte y),
           Xfer.data (hiByte y), Xfer.data (loByte y),
         Xfer.cmd 0x2C, Xfer.data (hiByte colour), Xfer.data (loByte colour)] ∧
    (transfers d (TFT_setPixel x y colour)).length = 13 ∧
    ((hiByte x : Int) * 256 + loByte x = x ∧ hiByte x < 256 ∧ loByte x < 256) ∧
    ((hiByte y : Int) * 256 + loByte y = y ∧ hiByte y < 256 ∧ loByte y < 256) ∧
    ((hiByte colour : Int) * 256 + loByte colour = colour
      ∧ hiByte colour < 256 ∧ loByte colour < 256) := by
  have key : transfers d (TFT_setPixel x y colour)
      = [Xfer.cmd 0x2A, Xfer.data (hiByte x), Xfer.data (loByte x),
           Xfer.data (hiByte x), Xfer.data (loByte x),
         Xfer.cmd 0x2B, Xfer.data (hiByte y), Xfer.data (loByte y),
           Xfer.data (hiByte y), Xfer.data (loByte y),
         Xfer.cmd 0x2C, Xfer.data (hiByte colour), Xfer.data (loByte colour)] := by
    have e : TFT_setPixel x y colour
        = TFT_sendCMD 0x2A ++ (TFT_sendWord x ++ (TFT_sendWord x ++
            (TFT_sendCMD 0x2B ++ (TFT_sendWord y ++ (TFT_sendWord y ++
              (TFT_sendCMD 0x2c ++ (TFT_sendWord colour ++ []))))))) := by
      simp [TFT_setPixel, TFT_setXY, TFT_setCol, TFT_setPage, List.append_assoc]
    have b1 : toByte 0x2A = 0x2A := by decide
    have b2 : toByte 0x2B = 0x2B := by decide
    have b3 : toByte 0x2c = 0x2C := by decide
    rw [e, transfers_sendCMD, transfers_sendWord _ x hx.1 hx.2, transfers_sendWord _ x hx.1 hx.2,
      transfers_sendCMD, transfers_sendWord _ y hy.1 hy.2, transfers_sendWord _ y hy.1 hy.2,
      transfers_sendCMD, transfers_sendWord _ colour hc.1 hc.2, b1, b2, b3]
    rfl
  refine ⟨key, by rw [key]; rfl, ?_, ?_, ?_⟩ <;>
    · unfold hiByte loByte
      omega

theorem setPixel_bus_sequence_witness :
    ((0 : Int) ≤ 0x0123 ∧ (0x0123 : Int) ≤ 0xFFFF) ∧
    ((0 : Int) ≤ 0x00EF ∧ (0x00EF : Int) ≤ 0xFFFF) ∧
    ((0 : Int) ≤ 0xF81F ∧ (0xF81F : Int) ≤ 0xFFFF) ∧
    transfers true (TFT_setPixel 0x0123 0x00EF 0xF81F)
      = [Xfer.cmd 0x2A, Xfer.data (hiByte 0x0123), Xfer.data (loByte 0x0123),
           Xfer.data (hiByte 0x0123), Xfer.data (loByte 0x0123),
         Xfer.cmd 0x2B, Xfer.data (hiByte 0x00EF), Xfer.data (loByte 0x00EF),
           Xfer.data (hiByte 0x00EF), Xfer.data (loByte 0x00EF),
         Xfer.cmd 0x2C, Xfer.data (hiByte 0xF81F), Xfer.data (loByte 0xF81F)] :=
  ⟨by decide, by decide, by decide,
   (setPixel_bus_sequence true 0x0123 0x00EF 0xF81F (by decide) (by decide) (by decide)).1⟩

/-! ### Initialization sequence -/

/-- The bus transfers of a call sequence that ends with sleep-out, the settle
delay, display-on and the command 0x2C. -/
theorem transfers_init_tail (a b : Nat) (n : Nat) :
    ∀ (pre : List Ev) (d : Bool),
      transfers d (pre ++ [Ev.dc false, Ev.spi a, Ev.delay n, Ev.dc false, Ev.spi b,
          Ev.dc false, Ev.spi 0x2C])
        = transfers d pre ++ [Xfer.cmd a, Xfer.cmd b, Xfer.cmd 0x2C] := by
  intro pre
  induction pre with
  | nil => intro d; simp [transfers, Xfer.cmd]
  | cons e es ih =>
    intro d
    cases e <;> simp [transfers, ih]

theorem initCalls_tail (K : Header) (pin_dc pin_reset : Int) :
    initCalls K pin_dc pin_reset
      = ([Ev.gpioExport pin_dc, Ev.gpioSetDirection pin_dc 1,
          Ev.gpioExport pin_reset, Ev.gpioSetDirection pin_reset 1,
          Ev.dc true, Ev.rst false, Ev.delay 0x7FFFFF, Ev.rst true] ++ initScript K)
        ++ [Ev.dc false, Ev.spi (toByte K.ILI9341_SLPOUT), Ev.delay 0x7FFFFF,
            Ev.dc false, Ev.spi (toByte K.ILI9341_DISPON), Ev.dc false, Ev.spi 0x2C] := by
  have b : toByte 0x2c = 0x2C := by decide
  simp [initCalls, TFT_sendCMD, TFT_sendByte, b]

/-- C7, amended. A successful construction ends its call sequence with
sleep-out, the settle delay, the display-on command and then the command
0x2C: the last three bus transfers are the command bytes `ILI9341_SLPOUT`,
`ILI9341_DISPON` and 0x2C, and nothing is emitted after 0x2C. -/
theorem init_ends_with_dispon_then_0x2C (K : Header) (System5x7 : Font)
    (self : ILI9341PyObject) (pin_dc pin_reset fd fd_dc fd_reset : Int) (hfd : 0 ≤ fd) :
    ∃ pre : List Ev,
      (ili9341_init K System5x7 self pin_dc pin_reset fd fd_dc fd_reset).map Prod.snd
        = some (pre ++ [Ev.dc false, Ev.spi (toByte K.ILI9341_SLPOUT), Ev.delay 0x7FFFFF,
                        Ev.dc false, Ev.spi (toByte K.ILI9341_DISPON),
                        Ev.dc false, Ev.spi 0x2C]) ∧
      (ili9341_init K System5x7 self pin_dc pin_reset fd fd_dc fd_reset).map
          (fun r => transfers true r.2)
        = some (transfers true pre
                ++ [Xfer.cmd (toByte K.ILI9341_SLPOUT), Xfer.cmd (toByte K.ILI9341_DISPON),
                    Xfer.cmd 0x2C]) ∧
      (ili9341_init K System5x7 self pin_dc pin_reset fd fd_dc fd_reset).map
          (fun r => (transfers true r.2).getLast?)
        = some (some (Xfer.cmd 0x2C)) := by
  have hnot : ¬ fd < 0 := by omega
  refine ⟨[Ev.gpioExport pin_dc, Ev.gpioSetDirection pin_dc 1,
          Ev.gpioExport pin_reset, Ev.gpioSetDirection pin_reset 1,
          Ev.dc true, Ev.rst false, Ev.delay 0x7FFFFF, Ev.rst true] ++ initScript K, ?_, ?_, ?_⟩
  · unfold ili9341_init
    rw [if_neg hnot, Option.map_some', initCalls_tail]
  · unfold ili9341_init
    rw [if_neg hnot, Option.map_some']
    simp only []
    rw [initCalls_tail, transfers_init_tail]
  · unfold ili9341_init
    rw [if_neg hnot, Option.map_some']
    simp only []
    rw [initCalls_tail, transfers_init_tail]
    simp

theorem init_ends_with_dispon_then_0x2C_witness :
    (0 : Int) ≤ 3 ∧
    ∃ pre : List Ev,
      (ili9341_init datasheet [] zeroObject 24 25 3 4 5).map Prod.snd
        = some (pre ++ [Ev.dc false, Ev.spi (toByte datasheet.ILI9341_SLPOUT), Ev.delay 0x7FFFFF,
                        Ev.dc false, Ev.spi (toByte datasheet.ILI9341_DISPON),
                        Ev.dc false, Ev.spi 0x2C]) ∧
      (ili9341_init datasheet [] zeroObject 24 25 3 4 5).map (fun r => transfers true r.2)
        = some (transfers true pre
                ++ [Xfer.cmd (toByte datasheet.ILI9341_SLPOUT),
                    Xfer.cmd (toByte datasheet.ILI9341_DISPON), Xfer.cmd 0x2C]) ∧
      (ili9341_init datasheet [] zeroObject 24 25 3 4 5).map
          (fun r => (transfers true r.2).getLast?)
        = some (some (Xfer.cmd 0x2C)) :=
  ⟨by decide, init_ends_with_dispon_then_0x2C datasheet [] zeroObject 24 25 3 4 5 (by decide)⟩

/-- C7 as stated fails: with the data-sheet header the last bus transfer of a
construction is the command 0x2C, sent after display-on (0x29); display-on is
not the last transfer. -/
theorem init_last_transfer_not_dispon :
    ¬ ((ili9341_init datasheet [] zeroObject 24 25 3 4 5).map
          (fun r => (transfers true r.2).getLast?)
        = some (some (Xfer.cmd (toByte datasheet.ILI9341_DISPON)))) := by
  have hinit : ili9341_init datasheet [] zeroObject 24 25 3 4 5
      = some (_, initCalls datasheet 24 25) := rfl
  rw [hinit, Option.map_some', initCalls_tail, transfers_init_tail]
  simp only [List.getLast?_append, List.getLast?_cons_cons, List.getLast?_singleton,
    Option.or_some]
  decide

/-! ### Rotation -/

/-- C8. For every prior state and every mode in `{0,1,2,3}`, after
`rotation(mode)` the dimensions are `(TFTWIDTH, TFTHEIGHT)` for modes 0 and 2
and `(TFTHEIGHT, TFTWIDTH)` for modes 1 and 3. In particular `rotation(0)` or
`rotation(2)` after any other rotation gives the native dimensions again. -/
theorem rotation_dimensions (K : Header) (self : ILI9341PyObject) (mode : Int)
    (hmode : mode = 0 ∨ mode = 1 ∨ mode = 2 ∨ mode = 3) :
    ((mode = 0 ∨ mode = 2) →
      (ili9341_rotation K self mode).1.width = K.ILI9341_TFTWIDTH ∧
      (ili9341_rotation K self mode).1.height = K.ILI9341_TFTHEIGHT) ∧
    ((mode = 1 ∨ mode = 3) →
      (ili9341_rotation K self mode).1.width = K.ILI9341_TFTHEIGHT ∧
      (ili9341_rotation K self mode).1.height = K.ILI9341_TFTWIDTH) ∧
    (∀ other : Int, (mode = 0 ∨ mode = 2) →
      (ili9341_rotation K (ili9341_rotation K self other).1 mode).1.width = K.ILI9341_TFTWIDTH ∧
      (ili9341_rotation K (ili9341_rotation K self other).1 mode).1.height
        = K.ILI9341_TFTHEIGHT) := by
  have t0 : (0 : Int).tmod 4 = 0 := by decide
  have t1 : (1 : Int).tmod 4 = 1 := by decide
  have t2 : (2 : Int).tmod 4 = 2 := by decide
  have t3 : (3 : Int).tmod 4 = 3 := by decide
  have base : ∀ s : ILI9341PyObject,
      ((mode = 0 ∨ mode = 2) →
        (ili9341_rotation K s mode).1.width = K.ILI9341_TFTWIDTH ∧
        (ili9341_rotation K s mode).1.height = K.ILI9341_TFTHEIGHT) ∧
      ((mode = 1 ∨ mode = 3) →
        (ili9341_rotation K s mode).1.width = K.ILI9341_TFTHEIGHT ∧
        (ili9341_rotation K s mode).1.height = K.ILI9341_TFTWIDTH) := by
    intro s
    rcases hmode with h | h | h | h <;> subst h <;>
      simp [ili9341_rotation, t0, t1, t2, t3]
  exact ⟨(base self).1, (base self).2, fun other h => (base _).1 h⟩

theorem rotation_dimensions_witness :
    ((1 : Int) = 0 ∨ (1 : Int) = 1 ∨ (1 : Int) = 2 ∨ (1 : Int) = 3) ∧
    (ili9341_rotation datasheet zeroObject 1).1.width = 320 ∧
    (ili9341_rotation datasheet zeroObject 1).1.height = 240 :=
  ⟨by decide,
   (rotation_dimensions datasheet zeroObject 1 (by decide)).2.1 (by decide)⟩

/-- C9, evaluated at a negative mode. `rotation(-1)` stores `-1` (the C
remainder of `-1 % 4`), matches no `case` of the `switch`, sends only the
`MADCTL` command byte and leaves `width` and `height` as they were. -/
theorem rotation_negative_mode (K : Header) (self : ILI9341PyObject) :
    (ili9341_rotation K self (-1)).1.rotation = -1 ∧
    ¬ (0 ≤ (ili9341_rotation K self (-1)).1.rotation) ∧
    (ili9341_rotation K self (-1)).1.width = self.width ∧
    (ili9341_rotation K self (-1)).1.height = self.height ∧
    (ili9341_rotation K self (-1)).2 = TFT_sendCMD K.ILI9341_MADCTL := by
  have t : (-1 : Int).tmod 4 = -1 := by decide
  simp [ili9341_rotation, t]

/-! ### Font selection -/

theorem setFontLoop_not_found (font : String) (self : ILI9341PyObject) :
    ∀ (table : FontTable), (∀ e ∈ table, e.1 ≠ font) → setFontLoop font self table = self := by
  intro table
  induction table with
  | nil => intro _; rfl
  | cons e rest ih =>
    intro h
    have he : e.1 ≠ font := h e (List.mem_cons_self _ _)
    rw [setFontLoop, if_neg he]
    exact ih (fun e2 h2 => h e2 (List.mem_cons_of_mem _ h2))

/-- C10. For every display state and every font name that is not in the font
table, `setFont(name)` (with or without a spacing argument) leaves the active
font unchanged. -/
theorem setFont_unknown_keeps_font (fonts_table : FontTable) (self : ILI9341PyObject)
    (name : String) (spacing : Option Int) (hname : ∀ e ∈ fonts_table, e.1 ≠ name) :
    (ili9341_setFont fonts_table self name spacing).font = self.font := by
  unfold ili9341_setFont
  simp only []
  rw [setFontLoop_not_found name _ fonts_table hname]

theorem setFont_unknown_keeps_font_witness :
    (∀ e ∈ ([("System5x7", [7, 32, 96, 0, 0, 5]), ("Arial14", [14, 32, 96, 1, 2])] : FontTable),
        e.1 ≠ "does-not-exist") ∧
    (ili9341_setFont [("System5x7", [7, 32, 96, 0, 0, 5]), ("Arial14", [14, 32, 96, 1, 2])]
        { zeroObject with font := [7, 32, 96, 0, 0, 5] } "does-not-exist" none).font
      = [7, 32, 96, 0, 0, 5] :=
  ⟨by decide,
   setFont_unknown_keeps_font [("System5x7", [7, 32, 96, 0, 0, 5]), ("Arial14", [14, 32, 96, 1, 2])]
     { zeroObject with font := [7, 32, 96, 0, 0, 5] } "does-not-exist" none (by decide)⟩

/-! ### Font selection: the remaining fields -/

/-- C11, amended. A `setFont` call whose name is not in the font table leaves
every field of the display state as it was, except the character spacing:
`char_spacing` becomes the spacing argument (1 when the argument is left
out). -/
theorem setFont_unknown_state (fonts_table : FontTable) (self : ILI9341PyObject)
    (name : String) (spacing : Option Int) (hname : ∀ e ∈ fonts_table, e.1 ≠ name) :
    ili9341_setFont fonts_table self name spacing
      = { self with char_spacing := spacing.getD 1 } := by
  unfold ili9341_setFont
  simp only []
  rw [setFontLoop_not_found name _ fonts_table hname]

theorem setFont_unknown_state_witness :
    (∀ e ∈ ([("System5x7", [7, 32, 96, 0, 0, 5])] : FontTable), e.1 ≠ "does-not-exist") ∧
    ili9341_setFont [("System5x7", [7, 32, 96, 0, 0, 5])]
        { zeroObject with char_spacing := 1, font := [7, 32, 96, 0, 0, 5] } "does-not-exist"
        (some 3)
      = { ({ zeroObject with char_spacing := 1, font := [7, 32, 96, 0, 0, 5] } : ILI9341PyObject)
          with char_spacing := (some (3 : Int)).getD 1 } :=
  ⟨by decide,
   setFont_unknown_state [("System5x7", [7, 32, 96, 0, 0, 5])]
     { zeroObject with char_spacing := 1, font := [7, 32, 96, 0, 0, 5] } "does-not-exist"
     (some 3) (by decide)⟩

/-- C11 as stated fails: `setFont("does-not-exist", 3)` on a state whose
character spacing is 1 leaves the state with character spacing 3. -/
theorem setFont_unknown_changes_spacing :
    ¬ (ili9341_setFont [("System5x7", [7, 32, 96, 0, 0, 5])]
          { zeroObject with char_spacing := 1, font := [7, 32, 96, 0, 0, 5] } "does-not-exist"
          (some 3)
        = { zeroObject with char_spacing := 1, font := [7, 32, 96, 0, 0, 5] }) := by
  decide

/-! ### Cursor -/

/-- C16, amended. `setCursor(x,y)` enforces the upper cursor bounds only: from
a state with `cursor_x ≤ width` and `cursor_y ≤ height` it leads to a state
with `cursor_x ≤ width` and `cursor_y ≤ height`. A coordinate that does not
exceed its bound is stored, also when it is negative; one that exceeds it
leaves the cursor coordinate as it was. -/
theorem setCursor_upper_bounds (self : ILI9341PyObject) (x y : Int)
    (hx : self.cursor_x ≤ self.width) (hy : self.cursor_y ≤ self.height) :
    (ili9341_setCursor self x y).cursor_x ≤ (ili9341_setCursor self x y).width ∧
    (ili9341_setCursor self x y).cursor_y ≤ (ili9341_setCursor self x y).height ∧
    (ili9341_setCursor self x y).cursor_x = (if x ≤ self.width then x else self.cursor_x) ∧
    (ili9341_setCursor self x y).cursor_y = (if y ≤ self.height then y else self.cursor_y) ∧
    (ili9341_setCursor self x y).width = self.width ∧
    (ili9341_setCursor self x y).height = self.height := by
  unfold ili9341_setCursor
  by_cases h1 : x ≤ self.width <;> by_cases h2 : y ≤ self.height <;>
    simp [h1, h2, hx, hy]

theorem setCursor_upper_bounds_witness :
    ({ zeroObject with width := 240, height := 320 } : ILI9341PyObject).cursor_x
        ≤ ({ zeroObject with width := 240, height := 320 } : ILI9341PyObject).width ∧
    ({ zeroObject with width := 240, height := 320 } : ILI9341PyObject).cursor_y
        ≤ ({ zeroObject with width := 240, height := 320 } : ILI9341PyObject).height ∧
    (ili9341_setCursor { zeroObject with width := 240, height := 320 } 500 (-7)).cursor_x = 0 ∧
    (ili9341_setCursor { zeroObject with width := 240, height := 320 } 500 (-7)).cursor_y = -7 :=
  ⟨by decide, by decide,
   by rw [(setCursor_upper_bounds { zeroObject with width := 240, height := 320 } 500 (-7)
        (by decide) (by decide)).2.2.1]; decide,
   by rw [(setCursor_upper_bounds { zeroObject with width := 240, height := 320 } 500 (-7)
        (by decide) (by decide)).2.2.2.1]; decide⟩

/-- C16 as stated fails: from the state with cursor `(0,0)` on a 240 x 320
display, `setCursor(-1,-1)` leads to `cursor_x = -1`, below the lower bound. -/
theorem setCursor_negative :
    ¬ (0 ≤ (ili9341_setCursor { zeroObject with width := 240, height := 320 } (-1) (-1)).cursor_x
        ∧ (ili9341_setCursor { zeroObject with width := 240, height := 320 } (-1) (-1)).cursor_x
            ≤ (ili9341_setCursor { zeroObject with width := 240, height := 320 } (-1) (-1)).width
        ∧ 0 ≤ (ili9341_setCursor { zeroObject with width := 240, height := 320 } (-1) (-1)).cursor_y
        ∧ (ili9341_setCursor { zeroObject with width := 240, height := 320 } (-1) (-1)).cursor_y
            ≤ (ili9341_setCursor { zeroObject with width := 240, height := 320 } (-1)
                (-1)).height) := by
  decide

/-! ### Fast lines of length 0 -/

theorem drawLine_back_one (steep : Bool) (a b c : Int) :
    drawLineOrdered steep a b (a - 1) b c
      = [(if steep then ((b, a - 1, c) : Pixel) else (a - 1, b, c)),
         (if steep then ((b, a, c) : Pixel) else (a, b, c))] := by
  unfold drawLineOrdered
  rw [if_pos (by omega)]
  have h := drawLineBody_flat steep (a - 1) b c 1 (by omega)
  have e : a - 1 + ((1 : Nat) : Int) = a := by push_cast; omega
  rw [e] at h
  rw [h]
  simp [List.range_succ]

/-- C17, amended. A fast vertical or horizontal line of length 0 delegates to
`line` with the second endpoint one before the start and writes two pixels:
the pixel one before the start, then the start pixel. -/
theorem fastLine_length_zero (x y c : Int) :
    ili9341_drawFastVLine x y 0 c = ili9341_drawLine x y x (y - 1) c ∧
    ili9341_drawFastVLine x y 0 c = [(x, y - 1, c), (x, y, c)] ∧
    ili9341_drawFastHLine x y 0 c = ili9341_drawLine x y (x - 1) y c ∧
    ili9341_drawFastHLine x y 0 c = [(x - 1, y, c), (x, y, c)] := by
  have ev : y + 0 - 1 = y - 1 := by omega
  have eh : x + 0 - 1 = x - 1 := by omega
  have hv : ili9341_drawLine x y x (y - 1) c = [(x, y - 1, c), (x, y, c)] := by
    unfold ili9341_drawLine
    have hs : (y - 1 - y).natAbs > (x - x).natAbs := by
      have e : y - 1 - y = -1 := by omega
      rw [e, sub_self]; decide
    simp only [hs, decide_True, if_true]
    rw [drawLine_back_one true y x c]
    simp
  have hh : ili9341_drawLine x y (x - 1) y c = [(x - 1, y, c), (x, y, c)] := by
    unfold ili9341_drawLine
    have hs : ¬ ((y - y).natAbs > (x - 1 - x).natAbs) := by
      rw [sub_self]; simp
    simp only [hs, decide_False]
    rw [drawLine_back_one false x y c]
    simp
  unfold ili9341_drawFastVLine ili9341_drawFastHLine
  rw [ev, eh]
  exact ⟨rfl, hv, rfl, hh⟩

/-- C17 as stated fails: `lineVertical(3,4,0,1)` writes two pixels, not one. -/
theorem fastLine_length_zero_two_pixels :
    ¬ ((ili9341_drawFastVLine 3 4 0 1).length = 1) := by
  decide

/-! ### Clear -/

theorem clearLoop_eq (bytes : Int) :
    ∀ (n : Nat) (i : Int), bytes = i + n →
      clearLoop bytes n i = (List.replicate n (TFT_sendWord 0)).flatten := by
  intro n
  induction n with
  | zero => intro i _; simp [clearLoop]
  | succ n ih =>
    intro i h
    have hlt : i < bytes := by rw [h]; push_cast; omega
    rw [clearLoop, if_pos hlt, ih (i + 1) (by rw [h]; push_cast; omega),
      List.replicate_succ, List.flatten_cons]

/-- C18. In every state reached by `rotation(mode)` with `mode` in `0..3` (the
panel dimensions of the header being non-negative), `clear()` sets the column
window, sets the page window, issues the command 0x2C and then makes exactly
`width * height` word transfers, every one of them `TFT_sendWord(0)`. -/
theorem clear_word_count (K : Header) (self : ILI9341PyObject) (mode : Int)
    (hmode : mode = 0 ∨ mode = 1 ∨ mode = 2 ∨ mode = 3)
    (hW : 0 ≤ K.ILI9341_TFTWIDTH) (hH : 0 ≤ K.ILI9341_TFTHEIGHT) :
    ili9341_clear K (ili9341_rotation K self mode).1
      = TFT_setCol 0 (ili9341_rotation K self mode).1.width
        ++ TFT_setPage 0 (ili9341_rotation K self mode).1.height
        ++ TFT_sendCMD 0x2c ++ [Ev.dc true]
        ++ (List.replicate
              ((ili9341_rotation K self mode).1.width
                * (ili9341_rotation K self mode).1.height).toNat
              (TFT_sendWord 0)).flatten ∧
    ((((ili9341_rotation K self mode).1.width
        * (ili9341_rotation K self mode).1.height).toNat : Nat) : Int)
      = (ili9341_rotation K self mode).1.width * (ili9341_rotation K self mode).1.height ∧
    TFT_sendWord 0 = [Ev.dc true, Ev.spi 0, Ev.spi 0] := by
  have t0 : (0 : Int).tmod 4 = 0 := by decide
  have t1 : (1 : Int).tmod 4 = 1 := by decide
  have t2 : (2 : Int).tmod 4 = 2 := by decide
  have t3 : (3 : Int).tmod 4 = 3 := by decide
  have hprod : 0 ≤ K.ILI9341_TFTWIDTH * K.ILI9341_TFTHEIGHT := mul_nonneg hW hH
  have hdim : (ili9341_rotation K self mode).1.width * (ili9341_rotation K self mode).1.height
      = K.ILI9341_TFTWIDTH * K.ILI9341_TFTHEIGHT := by
    rcases hmode with h | h | h | h <;> subst h <;>
      simp [ili9341_rotation, t0, t1, t2, t3, mul_comm]
  refine ⟨?_, ?_, by decide⟩
  · unfold ili9341_clear
    simp only []
    rw [hdim, clearLoop_eq _ _ 0 (by rw [Int.toNat_of_nonneg hprod]; ring)]
  · rw [hdim, Int.toNat_of_nonneg hprod]

theorem clear_word_count_witness :
    ((1 : Int) = 0 ∨ (1 : Int) = 1 ∨ (1 : Int) = 2 ∨ (1 : Int) = 3) ∧
    0 ≤ datasheet.ILI9341_TFTWIDTH ∧ 0 ≤ datasheet.ILI9341_TFTHEIGHT ∧
    ((((ili9341_rotation datasheet zeroObject 1).1.width
        * (ili9341_rotation datasheet zeroObject 1).1.height).toNat : Nat) : Int)
      = (ili9341_rotation datasheet zeroObject 1).1.width
          * (ili9341_rotation datasheet zeroObject 1).1.height :=
  ⟨by decide, by decide, by decide,
   (clear_word_count datasheet zeroObject 1 (by decide) (by decide) (by decide)).2.1⟩

/-! ### Character width -/

/-- C12, evaluated at a character of the upper half of a font's range. For the
fixed-width blob with first character 32, character count 96 and width 5, the
character `'A'` (65) lies in `[32, 32 + 96)`, yet `TFT_charWidth` returns 0: it
reads the character count from the offset of the first character, so its
range is `[32, 32 + 32)`. -/
theorem charWidth_reads_first_char_as_count :
    fontAt [7, 32, 96, 0, 0, 5] specLayout.FONT_FIRST_CHAR = 32 ∧
    fontAt [7, 32, 96, 0, 0, 5] specLayout.FONT_CHAR_COUNT = 96 ∧
    fontAt [7, 32, 96, 0, 0, 5] specLayout.FONT_FIXED_WIDTH = 5 ∧
    TFT_charWidth specLayout false { zeroObject with font := [7, 32, 96, 0, 0, 5] } 65 = 0 ∧
    TFT_charWidth specLayout true { zeroObject with font := [7, 32, 96, 0, 0, 5] } 65 = 0 ∧
    TFT_charWidth specLayout false { zeroObject with font := [7, 32, 96, 0, 0, 5] } 63 = 5 := by
  decide

/-! ### Drawing a space -/

/-- C13, evaluated off the origin. With cursor `(1,1)`, a font of height 7 and
`charWidth(' ') = 5`, the glyph box is `[1,6) × [1,8)`, 35 pixels; `TFT_char`
calls `fillRect(1, 1, 1+5, 1+7, bg)`, which writes 48 pixels, among them
`(6, 8)` outside the box. -/
theorem char_space_passes_corner_as_extent :
    TFT_charWidth specLayout false
        { zeroObject with width := 240, height := 320, cursor_x := 1, cursor_y := 1,
                          bg_color := 2, font := [7, 97, 26, 0, 0, 5] } 32 = 5 ∧
    fontAt [7, 97, 26, 0, 0, 5] specLayout.FONT_HEIGHT = 7 ∧
    (TFT_char specLayout false
        { zeroObject with width := 240, height := 320, cursor_x := 1, cursor_y := 1,
                          bg_color := 2, font := [7, 97, 26, 0, 0, 5] } 32).2
      = ili9341_fillRect 1 1 6 8 2 ∧
    (TFT_char specLayout false
        { zeroObject with width := 240, height := 320, cursor_x := 1, cursor_y := 1,
                          bg_color := 2, font := [7, 97, 26, 0, 0, 5] } 32).2.length = 48 ∧
    ((6, 8, 2) : Pixel) ∈
      (TFT_char specLayout false
        { zeroObject with width := 240, height := 320, cursor_x := 1, cursor_y := 1,
                          bg_color := 2, font := [7, 97, 26, 0, 0, 5] } 32).2 := by
  refine ⟨by decide, by decide, by decide, by decide, by decide⟩

/-! ### Text layout -/

theorem TFT_charWidth_font (H : FontsHeader) (signedChar : Bool) (s1 s2 : ILI9341PyObject)
    (ch : Nat) (h : s1.font = s2.font) :
    TFT_charWidth H signedChar s1 ch = TFT_charWidth H signedChar s2 ch := by
  unfold TFT_charWidth
  rw [h]

theorem writeStringLoop_no_wrap (H : FontsHeader) (signedChar : Bool) (font : Font)
    (ref : ILI9341PyObject) :
    ∀ (str : List Nat) (self : ILI9341PyObject),
      self.font = ref.font → self.char_spacing = ref.char_spacing → self.width = ref.width →
      (∀ k, k < str.length →
        self.cursor_x
          + ((str.take (k + 1)).map
              (fun ch => TFT_charWidth H signedChar ref ch + ref.char_spacing)).sum
          ≤ ref.width) →
      (writeStringLoop H signedChar font self str).1.cursor_x
          = self.cursor_x
            + (str.map (fun ch => TFT_charWidth H signedChar ref ch + ref.char_spacing)).sum ∧
      (writeStringLoop H signedChar font self str).1.cursor_y = self.cursor_y := by
  intro str
  induction str with
  | nil => intro self _ _ _ _; simp [writeStringLoop]
  | cons ch rest ih =>
    intro self hf hs hw hfit
    have hcw : TFT_charWidth H signedChar self ch = TFT_charWidth H signedChar ref ch :=
      TFT_charWidth_font H signedChar self ref ch hf
    have h0 := hfit 0 (by simp)
    simp only [List.take_succ_cons, List.take_zero, List.map_cons, List.map_nil, List.sum_cons,
      List.sum_nil, add_zero] at h0
    have hstep : self.cursor_x + (TFT_charWidth H signedChar self ch + self.char_spacing)
        ≤ self.width := by
      rw [hcw, hs, hw]; exact h0
    rw [writeStringLoop]
    simp only [if_pos hstep]
    have hrest := ih { self with cursor_x := self.cursor_x
        + (TFT_charWidth H signedChar self ch + self.char_spacing) } hf hs hw
      (by
        intro k hk
        have hk1 := hfit (k + 1) (by simp; omega)
        simp only [List.take_succ_cons, List.map_cons, List.sum_cons] at hk1
        simp only []
        rw [hcw, hs]
        omega)
    simp only [] at hrest
    rw [hrest.1, hrest.2, hcw, hs]
    simp only [List.map_cons, List.sum_cons]
    constructor
    · omega
    · trivial

/-- C15. If no character needs a wrap (at each step `cursor_x + charWidth(ch)
+ spacing ≤ width`), then after `writeString(s,x,y,colour)` the cursor is at
`x +` the sum over the characters of `s` of `charWidth(ch) + spacing`, and
`cursor_y = y`. -/
theorem writeString_no_wrap_advance (H : FontsHeader) (signedChar : Bool)
    (self : ILI9341PyObject) (str : List Nat) (x y : Int) (color : Option Int)
    (hfit : ∀ k, k < str.length →
      x + ((str.take (k + 1)).map
            (fun ch => TFT_charWidth H signedChar self ch + self.char_spacing)).sum
        ≤ self.width) :
    (ili9341_writeString H signedChar self str (some x) (some y) color).1.cursor_x
      = x + (str.map (fun ch => TFT_charWidth H signedChar self ch + self.char_spacing)).sum ∧
    (ili9341_writeString H signedChar self str (some x) (some y) color).1.cursor_y = y := by
  unfold ili9341_writeString
  simp only [Option.getD_some]
  exact writeStringLoop_no_wrap H signedChar self.font self str
    { self with cursor_x := x, cursor_y := y, color := color.getD self.color } rfl rfl rfl hfit

theorem writeString_no_wrap_advance_witness :
    (∀ k, k < ([65, 66] : List Nat).length →
      (0 : Int) + ((([65, 66] : List Nat).take (k + 1)).map
            (fun ch => TFT_charWidth specLayout false
                { zeroObject with width := 240, height := 320, char_spacing := 1,
                                  font := [7, 65, 26, 0, 0, 5] } ch
              + ({ zeroObject with width := 240, height := 320, char_spacing := 1,
                                   font := [7, 65, 26, 0, 0, 5] } : ILI9341PyObject).char_spacing)).sum
        ≤ ({ zeroObject with width := 240, height := 320, char_spacing := 1,
                             font := [7, 65, 26, 0, 0, 5] } : ILI9341PyObject).width) ∧
    (ili9341_writeString specLayout false
        { zeroObject with width := 240, height := 320, char_spacing := 1,
                          font := [7, 65, 26, 0, 0, 5] } [65, 66] (some 0) (some 0) (some 5)).1.cursor_x
      = 12 :=
  ⟨by decide,
   by rw [(writeString_no_wrap_advance specLayout false
        { zeroObject with width := 240, height := 320, char_spacing := 1,
                          font := [7, 65, 26, 0, 0, 5] } [65, 66] 0 0 (some 5) (by decide)).1]
      decide⟩

/-! ### Line: number of pixels and end points -/

/-- The major-axis coordinate of a pixel written by the line loop. -/
theorem drawLineLoop_major (steep : Bool) (dx dy ystep c : Int) :
    ∀ (n : Nat) (x0 y0 err : Int),
      (drawLineLoop steep dx dy ystep (x0 + n - 1) c n x0 y0 err).map
          (fun p => if steep then p.2.1 else p.1)
        = (List.range n).map (fun (k : Nat) => x0 + (k : Int)) := by
  intro n
  induction n with
  | zero => intro x0 y0 err; simp [drawLineLoop]
  | succ n ih =>
    intro x0 y0 err
    have hx : x0 ≤ x0 + ((n + 1 : Nat) : Int) - 1 := by push_cast; omega
    have hx1 : x0 + ((n + 1 : Nat) : Int) - 1 = (x0 + 1) + (n : Int) - 1 := by push_cast; omega
    rw [drawLineLoop, if_pos hx, List.range_succ_eq_map, List.map_cons, List.map_map]
    have hrest : (List.range n).map ((fun (k : Nat) => x0 + (k : Int)) ∘ Nat.succ)
        = (List.range n).map (fun (k : Nat) => x0 + 1 + (k : Int)) := by
      apply List.map_congr_left
      intro k _
      simp only [Function.comp, Nat.succ_eq_add_one]
      push_cast
      omega
    rw [hrest]
    simp only []
    by_cases hneg : wrap16 (err - dy) < 0
    · simp only [if_pos hneg, List.map_cons]
      rw [hx1, ih (x0 + 1)]
      congr 1
      cases steep <;> simp
    · simp only [if_neg hneg, List.map_cons]
      rw [hx1, ih (x0 + 1)]
      congr 1
      cases steep <;> simp

/-- Bresenham invariant. With `0 ≤ dy ≤ dx`, `0 < dx ≤ 32767` and an error
term in `[0, dx)`, the loop over `x0 .. x0+n` starts at `(x0, y0)` and ends at
`(x0+n, y0 + ystep*m)` where `err - n*dy + m*dx` is again in `[0, dx)`. -/
theorem drawLineLoop_last (steep : Bool) (dx dy ystep c : Int)
    (hdx : 0 < dx) (hdx16 : dx ≤ 32767) (hdy0 : 0 ≤ dy) (hdy : dy ≤ dx) :
    ∀ (n : Nat) (x0 y0 err : Int), 0 ≤ err → err < dx →
      ∃ m : Int, 0 ≤ err - n * dy + m * dx ∧ err - n * dy + m * dx < dx ∧
        (drawLineLoop steep dx dy ystep (x0 + n) c (n + 1) x0 y0 err).head?
          = some (if steep then ((y0, x0, c) : Pixel) else (x0, y0, c)) ∧
        (drawLineLoop steep dx dy ystep (x0 + n) c (n + 1) x0 y0 err).getLast?
          = some (if steep then ((y0 + ystep * m, x0 + n, c) : Pixel)
                  else (x0 + n, y0 + ystep * m, c)) := by
  intro n
  induction n with
  | zero =>
    intro x0 y0 err h0 h1
    refine ⟨0, by simpa using h0, by simpa using h1, ?_, ?_⟩
    · rw [drawLineLoop, if_pos (by simp)]
      by_cases hneg : wrap16 (err - dy) < 0 <;> simp [hneg]
    · rw [drawLineLoop, if_pos (by simp)]
      by_cases hneg : wrap16 (err - dy) < 0 <;> simp [hneg, drawLineLoop]
  | succ n ih =>
    intro x0 y0 err h0 h1
    have hx : x0 ≤ x0 + ((n + 1 : Nat) : Int) := by push_cast; omega
    have hx1 : x0 + ((n + 1 : Nat) : Int) = (x0 + 1) + (n : Int) := by push_cast; omega
    have hw1 : wrap16 (err - dy) = err - dy := wrap16_of_range _ (by omega) (by omega)
    by_cases hneg : err - dy < 0
    · have hw2 : wrap16 (err - dy + dx) = err - dy + dx :=
        wrap16_of_range _ (by omega) (by omega)
      obtain ⟨m, hm0, hm1, hhead, hlast⟩ :=
        ih (x0 + 1) (y0 + ystep) (err - dy + dx) (by omega) (by omega)
      refine ⟨m + 1, ?_, ?_, ?_, ?_⟩
      · have e : err - ((n + 1 : Nat) : Int) * dy + (m + 1) * dx
            = err - dy + dx - n * dy + m * dx := by push_cast; ring
        rw [e]; exact hm0
      · have e : err - ((n + 1 : Nat) : Int) * dy + (m + 1) * dx
            = err - dy + dx - n * dy + m * dx := by push_cast; ring
        rw [e]; exact hm1
      · rw [drawLineLoop, if_pos hx]
        simp only [hw1, if_pos hneg, List.head?_cons]
      · rw [drawLineLoop, if_pos hx]
        simp only [hw1, hw2, if_pos hneg]
        rw [hx1, List.getLast?_cons, hlast, Option.getD_some]
        have e1 : y0 + ystep + ystep * m = y0 + ystep * (m + 1) := by ring
        rw [e1]
    · obtain ⟨m, hm0, hm1, hhead, hlast⟩ :=
        ih (x0 + 1) y0 (err - dy) (by omega) (by omega)
      refine ⟨m, ?_, ?_, ?_, ?_⟩
      · have e : err - ((n + 1 : Nat) : Int) * dy + m * dx
            = err - dy - n * dy + m * dx := by push_cast; ring
        rw [e]; exact hm0
      · have e : err - ((n + 1 : Nat) : Int) * dy + m * dx
            = err - dy - n * dy + m * dx := by push_cast; ring
        rw [e]; exact hm1
      · rw [drawLineLoop, if_pos hx]
        simp only [hw1, if_neg hneg, List.head?_cons]
      · rw [drawLineLoop, if_pos hx]
        simp only [hw1, if_neg hneg]
        rw [hx1, List.getLast?_cons, hlast, Option.getD_some]

theorem drawLineBody_endpoints (steep : Bool) (x0 y0 x1 y1 c : Int)
    (hle : x0 ≤ x1) (hdx : x1 - x0 ≤ 32767) (hdy : ((y1 - y0).natAbs : Int) ≤ x1 - x0) :
    (drawLineBody steep x0 y0 x1 y1 c).head?
        = some (if steep then ((y0, x0, c) : Pixel) else (x0, y0, c)) ∧
    (drawLineBody steep x0 y0 x1 y1 c).getLast?
        = some (if steep then ((y1, x1, c) : Pixel) else (x1, y1, c)) ∧
    (drawLineBody steep x0 y0 x1 y1 c).map (fun p => if steep then p.2.1 else p.1)
        = (List.range ((x1 - x0).toNat + 1)).map (fun (k : Nat) => x0 + (k : Int)) := by
  obtain ⟨n, rfl⟩ : ∃ n : Nat, x1 = x0 + (n : Int) := ⟨(x1 - x0).toNat, by omega⟩
  have hdxn : x0 + (n : Int) - x0 = n := by omega
  rw [hdxn] at hdx hdy
  have hfuel : (x0 + (n : Int) + 1 - x0).toNat = n + 1 := by omega
  have hw : wrap16 (n : Int) = n := wrap16_of_range _ (by omega) (by omega)
  have hwdy : wrap16 (((y1 - y0).natAbs : Nat) : Int) = ((y1 - y0).natAbs : Nat) :=
    wrap16_of_range _ (by omega) (by omega)
  have htd : (n : Int).tdiv 2 = (n : Int) / 2 := Int.tdiv_eq_ediv (by omega) (by omega)
  have herr : wrap16 ((n : Int) / 2) = (n : Int) / 2 := wrap16_of_range _ (by omega) (by omega)
  have hmajor : (drawLineBody steep x0 y0 (x0 + n) y1 c).map
        (fun p => if steep then p.2.1 else p.1)
      = (List.range (n + 1)).map (fun (k : Nat) => x0 + (k : Int)) := by
    unfold drawLineBody
    simp only [hfuel]
    have e : x0 + (n : Int) = x0 + ((n + 1 : Nat) : Int) - 1 := by push_cast; omega
    rw [e]
    exact drawLineLoop_major steep _ _ _ c (n + 1) x0 y0 _
  have htoNat : (n : Int).toNat = n := by omega
  rw [hdxn, htoNat]
  refine ⟨?_, ?_, hmajor⟩
  · rcases Nat.eq_zero_or_pos n with h0 | hpos
    · subst h0
      have hy : y1 = y0 := by
        have : ((y1 - y0).natAbs : Int) ≤ 0 := by simpa using hdy
        omega
      subst hy
      have hb := drawLineBody_flat steep x0 y1 c 0 (by omega)
      rw [hb]
      cases steep <;> simp [List.range_succ]
    · unfold drawLineBody
      simp only [hdxn, hfuel, hw, hwdy, htd, herr]
      obtain ⟨m, -, -, hhead, -⟩ := drawLineLoop_last steep (n : Int) ((y1 - y0).natAbs : Nat)
        (if y0 < y1 then 1 else -1) c (by omega) hdx (by omega) hdy n x0 y0 ((n : Int) / 2)
        (by omega) (by omega)
      exact hhead
  · rcases Nat.eq_zero_or_pos n with h0 | hpos
    · subst h0
      have hy : y1 = y0 := by
        have : ((y1 - y0).natAbs : Int) ≤ 0 := by simpa using hdy
        omega
      subst hy
      have hb := drawLineBody_flat steep x0 y1 c 0 (by omega)
      rw [hb]
      cases steep <;> simp [List.range_succ]
    · unfold drawLineBody
      simp only [hdxn, hfuel, hw, hwdy, htd, herr]
      obtain ⟨m, hm0, hm1, -, hlast⟩ := drawLineLoop_last steep (n : Int)
        ((y1 - y0).natAbs : Nat) (if y0 < y1 then 1 else -1) c (by omega) hdx (by omega) hdy
        n x0 y0 ((n : Int) / 2) (by omega) (by omega)
      have hnpos : (0 : Int) < n := by omega
      have hhalf0 : 0 ≤ (n : Int) / 2 := by omega
      have hhalf1 : (n : Int) / 2 < n := by omega
      have hm : m = ((y1 - y0).natAbs : Nat) := by
        by_contra hne
        rcases lt_or_gt_of_ne hne with hlt | hgt
        · have h1 : m + 1 ≤ ((y1 - y0).natAbs : Nat) := by omega
          have h2 : (m + 1) * (n : Int) ≤ (((y1 - y0).natAbs : Nat) : Int) * n :=
            mul_le_mul_of_nonneg_right h1 (le_of_lt hnpos)
          nlinarith
        · have h1 : (((y1 - y0).natAbs : Nat) : Int) + 1 ≤ m := by omega
          have h2 : ((((y1 - y0).natAbs : Nat) : Int) + 1) * (n : Int) ≤ m * n :=
            mul_le_mul_of_nonneg_right h1 (le_of_lt hnpos)
          nlinarith
      rw [hlast, hm]
      have hyend : y0 + (if y0 < y1 then 1 else -1) * (((y1 - y0).natAbs : Nat) : Int) = y1 := by
        split_ifs <;> omega
      rw [hyend]

/-- C19. For end points whose coordinate differences fit `int16_t`
(`|x1-x0| ≤ 32767`, `|y1-y0| ≤ 32767`), `line` writes exactly
`max(|x1-x0|, |y1-y0|) + 1` pixels, one for each value of the major-axis
coordinate between the end points, and the first and the last pixel written
are the two given end points, in one order or the other. -/
theorem drawLine_count_and_endpoints (x0 y0 x1 y1 c : Int)
    (hx : (x1 - x0).natAbs ≤ 32767) (hy : (y1 - y0).natAbs ≤ 32767) :
    (ili9341_drawLine x0 y0 x1 y1 c).length
        = max (x1 - x0).natAbs (y1 - y0).natAbs + 1 ∧
    (((ili9341_drawLine x0 y0 x1 y1 c).head? = some (x0, y0, c) ∧
        (ili9341_drawLine x0 y0 x1 y1 c).getLast? = some (x1, y1, c)) ∨
      ((ili9341_drawLine x0 y0 x1 y1 c).head? = some (x1, y1, c) ∧
        (ili9341_drawLine x0 y0 x1 y1 c).getLast? = some (x0, y0, c))) ∧
    (¬ ((y1 - y0).natAbs > (x1 - x0).natAbs) →
      (ili9341_drawLine x0 y0 x1 y1 c).map (fun p => p.1)
        = (List.range ((x1 - x0).natAbs + 1)).map (fun (k : Nat) => min x0 x1 + (k : Int))) ∧
    ((y1 - y0).natAbs > (x1 - x0).natAbs →
      (ili9341_drawLine x0 y0 x1 y1 c).map (fun p => p.2.1)
        = (List.range ((y1 - y0).natAbs + 1)).map (fun (k : Nat) => min y0 y1 + (k : Int))) := by
  have hlen : ∀ (l : List Pixel) (f : Pixel → Int) (n : Nat) (a : Int),
      l.map f = (List.range n).map (fun (k : Nat) => a + (k : Int)) → l.length = n := by
    intro l f n a h
    have := congrArg List.length h
    simpa using this
  unfold ili9341_drawLine
  by_cases hs : (y1 - y0).natAbs > (x1 - x0).natAbs
  · simp only [hs, decide_True, if_true, not_true_eq_false, false_implies, true_implies]
    have hmax : max (x1 - x0).natAbs (y1 - y0).natAbs = (y1 - y0).natAbs := by omega
    rw [hmax]
    unfold drawLineOrdered
    by_cases hgt : y0 > y1
    · simp only [if_pos hgt]
      obtain ⟨h1, h2, h3⟩ := drawLineBody_endpoints true y1 x1 y0 x0 c (by omega) (by omega)
        (by omega)
      simp only [if_true] at h1 h2 h3
      have e1 : (y0 - y1).toNat = (y1 - y0).natAbs := by omega
      have e2 : min y0 y1 = y1 := by omega
      rw [e1] at h3
      rw [e2]
      exact ⟨hlen _ _ _ _ h3, Or.inr ⟨h1, h2⟩, trivial, h3⟩
    · simp only [if_neg hgt]
      obtain ⟨h1, h2, h3⟩ := drawLineBody_endpoints true y0 x0 y1 x1 c (by omega) (by omega)
        (by omega)
      simp only [if_true] at h1 h2 h3
      have e1 : (y1 - y0).toNat = (y1 - y0).natAbs := by omega
      have e2 : min y0 y1 = y0 := by omega
      rw [e1] at h3
      rw [e2]
      exact ⟨hlen _ _ _ _ h3, Or.inl ⟨h1, h2⟩, trivial, h3⟩
  · simp only [hs, decide_False, not_false_eq_true, false_implies, true_implies,
      Bool.false_eq_true, if_false]
    have hmax : max (x1 - x0).natAbs (y1 - y0).natAbs = (x1 - x0).natAbs := by omega
    rw [hmax]
    unfold drawLineOrdered
    by_cases hgt : x0 > x1
    · simp only [if_pos hgt]
      obtain ⟨h1, h2, h3⟩ := drawLineBody_endpoints false x1 y1 x0 y0 c (by omega) (by omega)
        (by omega)
      simp only [Bool.false_eq_true, if_false] at h1 h2 h3
      have e1 : (x0 - x1).toNat = (x1 - x0).natAbs := by omega
      have e2 : min x0 x1 = x1 := by omega
      rw [e1] at h3
      rw [e2]
      exact ⟨hlen _ _ _ _ h3, Or.inr ⟨h1, h2⟩, h3, trivial⟩
    · simp only [if_neg hgt]
      obtain ⟨h1, h2, h3⟩ := drawLineBody_endpoints false x0 y0 x1 y1 c (by omega) (by omega)
        (by omega)
      simp only [Bool.false_eq_true, if_false] at h1 h2 h3
      have e1 : (x1 - x0).toNat = (x1 - x0).natAbs := by omega
      have e2 : min x0 x1 = x0 := by omega
      rw [e1] at h3
      rw [e2]
      exact ⟨hlen _ _ _ _ h3, Or.inl ⟨h1, h2⟩, h3, trivial⟩

theorem drawLine_count_and_endpoints_witness :
    ((5 : Int) - 0).natAbs ≤ 32767 ∧ ((2 : Int) - 0).natAbs ≤ 32767 ∧
    (ili9341_drawLine 0 0 5 2 1).length = max ((5 : Int) - 0).natAbs ((2 : Int) - 0).natAbs + 1 :=
  ⟨by decide, by decide,
   (drawLine_count_and_endpoints 0 0 5 2 1 (by decide) (by decide)).1⟩

/-! ### Filled circle: termination -/

/-- One pass of the loop body of `ili9341_fillCircle` from a state with
`x ≤ 0`, `0 ≤ y ≤ r` and `err = (x+1)² + (y+1)² - r²`: `x` and `y` never
decrease, each grows by at most 1, at least one of them grows, `y` stays
at most `r`, and the relation between `err`, `x`, `y` holds again. -/
theorem fillCircleBody_step (poX poY color r x y err : Int)
    (hx : x ≤ 0) (hy0 : 0 ≤ y) (hyr : y ≤ r)
    (herr : err = (x + 1) * (x + 1) + (y + 1) * (y + 1) - r * r) :
    ((fillCircleBody poX poY color x y err).2.1 = x
        ∨ (fillCircleBody poX poY color x y err).2.1 = x + 1) ∧
    ((fillCircleBody poX poY color x y err).2.2.1 = y
        ∨ (fillCircleBody poX poY color x y err).2.2.1 = y + 1) ∧
    ((fillCircleBody poX poY color x y err).2.1 = x + 1
        ∨ (fillCircleBody poX poY color x y err).2.2.1 = y + 1) ∧
    (fillCircleBody poX poY color x y err).2.2.1 ≤ r ∧
    (fillCircleBody poX poY color x y err).2.2.2
      = ((fillCircleBody poX poY color x y err).2.1 + 1)
          * ((fillCircleBody poX poY color x y err).2.1 + 1)
        + ((fillCircleBody poX poY color x y err).2.2.1 + 1)
          * ((fillCircleBody poX poY color x y err).2.2.1 + 1)
        - r * r := by
  have hylt : err ≤ y → y + 1 ≤ r := by
    intro he
    by_contra hcon
    have hry : r ≤ y := by omega
    have hr0 : 0 ≤ r := le_trans hy0 hyr
    have h1 : r * r ≤ y * y := mul_self_le_mul_self hr0 hry
    nlinarith [mul_self_nonneg (x + 1)]
  have fin : ∀ x1 y1 e1 : Int, (fillCircleBody poX poY color x y err).2 = (x1, y1, e1) →
      (x1 = x ∨ x1 = x + 1) → (y1 = y ∨ y1 = y + 1) → (x1 = x + 1 ∨ y1 = y + 1) → y1 ≤ r →
      e1 = (x1 + 1) * (x1 + 1) + (y1 + 1) * (y1 + 1) - r * r →
      ((fillCircleBody poX poY color x y err).2.1 = x
          ∨ (fillCircleBody poX poY color x y err).2.1 = x + 1) ∧
      ((fillCircleBody poX poY color x y err).2.2.1 = y
          ∨ (fillCircleBody poX poY color x y err).2.2.1 = y + 1) ∧
      ((fillCircleBody poX poY color x y err).2.1 = x + 1
          ∨ (fillCircleBody poX poY color x y err).2.2.1 = y + 1) ∧
      (fillCircleBody poX poY color x y err).2.2.1 ≤ r ∧
      (fillCircleBody poX poY color x y err).2.2.2
        = ((fillCircleBody poX poY color x y err).2.1 + 1)
            * ((fillCircleBody poX poY color x y err).2.1 + 1)
          + ((fillCircleBody poX poY color x y err).2.2.1 + 1)
            * ((fillCircleBody poX poY color x y err).2.2.1 + 1)
          - r * r := by
    intro x1 y1 e1 hb a b c d e
    rw [hb]
    exact ⟨a, b, c, d, e⟩
  by_cases h1 : err ≤ y
  · have hy1 := hylt h1
    by_cases h2 : -x = y + 1 ∧ err ≤ x
    · have hc : err ≤ y ∧ -x = y + 1 ∧ err ≤ x := ⟨h1, h2.1, h2.2⟩
      by_cases h3 : (0 : Int) > x
      · refine fin (x + 1) (y + 1) (err + ((y + 1) * 2 + 1) + ((x + 1) * 2 + 1)) ?_
          (Or.inr rfl) (Or.inr rfl) (Or.inl rfl) hy1 (by rw [herr]; ring)
        unfold fillCircleBody
        simp only [if_pos h1, if_pos hc, if_pos h3]
      · refine fin x (y + 1) (err + ((y + 1) * 2 + 1)) ?_
          (Or.inl rfl) (Or.inr rfl) (Or.inr rfl) hy1 (by rw [herr]; ring)
        unfold fillCircleBody
        simp only [if_pos h1, if_pos hc, if_neg h3]
    · have hc : ¬ (err ≤ y ∧ -x = y + 1 ∧ err ≤ x) := fun h => h2 ⟨h.2.1, h.2.2⟩
      by_cases h3 : err > x
      · refine fin (x + 1) (y + 1) (err + ((y + 1) * 2 + 1) + ((x + 1) * 2 + 1)) ?_
          (Or.inr rfl) (Or.inr rfl) (Or.inl rfl) hy1 (by rw [herr]; ring)
        unfold fillCircleBody
        simp only [if_pos h1, if_neg hc, if_pos h3]
      · refine fin x (y + 1) (err + ((y + 1) * 2 + 1)) ?_
          (Or.inl rfl) (Or.inr rfl) (Or.inr rfl) hy1 (by rw [herr]; ring)
        unfold fillCircleBody
        simp only [if_pos h1, if_neg hc, if_neg h3]
  · have hc : ¬ (err ≤ y ∧ -x = y ∧ err ≤ x) := fun h => h1 h.1
    have h3 : err > x := by omega
    refine fin (x + 1) y (err + ((x + 1) * 2 + 1)) ?_
      (Or.inr rfl) (Or.inl rfl) (Or.inl rfl) hyr (by rw [herr]; ring)
    unfold fillCircleBody
    simp only [if_neg h1, if_neg hc, if_pos h3]

/-- From a state with `x ≤ 0`, `0 ≤ y ≤ r` and `err = (x+1)² + (y+1)² - r²`
the loop leaves after at most `(r - y) + (1 - x)` passes, with `x = 1` and
`y ≤ r`. -/
theorem fillCircleLoop_terminates (poX poY color r : Int) :
    ∀ (fuel : Nat) (x y err : Int), x ≤ 0 → 0 ≤ y → y ≤ r →
      err = (x + 1) * (x + 1) + (y + 1) * (y + 1) - r * r →
      (r - y) + (1 - x) ≤ (fuel : Int) →
      ∃ (px : List Pixel) (n : Nat) (yf errf : Int),
        fillCircleLoop poX poY color fuel x y err = some (px, n, (1, yf, errf)) ∧
        1 ≤ n ∧ (n : Int) ≤ (r - y) + (1 - x) ∧ y ≤ yf ∧ yf ≤ r := by
  intro fuel
  induction fuel with
  | zero =>
    intro x y err hx hy0 hyr _ hfuel
    simp at hfuel
    omega
  | succ fuel ih =>
    intro x y err hx hy0 hyr herr hfuel
    obtain ⟨hbx, hby, hprog, hy1r, herr1⟩ :=
      fillCircleBody_step poX poY color r x y err hx hy0 hyr herr
    rw [fillCircleLoop]
    by_cases hcont : (fillCircleBody poX poY color x y err).2.1 ≤ 0
    · have hy1 : 0 ≤ (fillCircleBody poX poY color x y err).2.2.1 := by
        rcases hby with h | h <;> rw [h] <;> omega
      obtain ⟨px, n, yf, errf, hloop, hn1, hn, hyf0, hyf⟩ :=
        ih _ _ _ hcont hy1 hy1r herr1 (by push_cast at hfuel; omega)
      refine ⟨(fillCircleBody poX poY color x y err).1 ++ px, n + 1, yf, errf, ?_, by omega,
        by push_cast; omega, by omega, hyf⟩
      rw [if_pos hcont, hloop]
      rfl
    · refine ⟨(fillCircleBody poX poY color x y err).1, 1,
        (fillCircleBody poX poY color x y err).2.2.1,
        (fillCircleBody poX poY color x y err).2.2.2, ?_, by omega, by push_cast; omega,
        by rcases hby with h | h <;> omega, hy1r⟩
      rw [if_neg hcont]
      have hx1 : (fillCircleBody poX poY color x y err).2.1 = 1 := by omega
      rw [← hx1]

/-- A result of the loop does not depend on the bound: more passes allowed
give the same result. -/
theorem fillCircleLoop_mono (poX poY color : Int) :
    ∀ (fuel extra : Nat) (x y err : Int) (v : List Pixel × Nat × (Int × Int × Int)),
      fillCircleLoop poX poY color fuel x y err = some v →
      fillCircleLoop poX poY color (fuel + extra) x y err = some v := by
  intro fuel
  induction fuel with
  | zero => intro extra x y err v h; simp [fillCircleLoop] at h
  | succ fuel ih =>
    intro extra x y err v h
    have e : fuel + 1 + extra = (fuel + extra) + 1 := by omega
    rw [e, fillCircleLoop]
    rw [fillCircleLoop] at h
    by_cases hcont : (fillCircleBody poX poY color x y err).2.1 ≤ 0
    · rw [if_pos hcont] at h ⊢
      cases hrec : fillCircleLoop poX poY color fuel (fillCircleBody poX poY color x y err).2.1
          (fillCircleBody poX poY color x y err).2.2.1
          (fillCircleBody poX poY color x y err).2.2.2 with
      | none => rw [hrec] at h; simp at h
      | some t =>
        rw [hrec] at h
        rw [ih extra _ _ _ t hrec]
        exact h
    · rw [if_neg hcont] at h ⊢
      exact h

/-- C20. The `do ... while (x <= 0)` loop of `circleFilled` terminates for
every radius. For `r ≥ 0` it leaves after at most `2r+1` passes with `x = 1`
and `y ≤ r`; on the way every pass increments `x` or `y`, neither ever
decreases and `y` never exceeds `r`. For `r < 0` the body runs exactly once.
Allowing more passes than needed changes nothing. -/
theorem fillCircle_terminates (poX poY r color : Int) :
    (0 ≤ r →
      ∃ (px : List Pixel) (n : Nat) (yf errf : Int),
        ili9341_fillCircle (2 * r + 1).toNat poX poY r color = some (px, n, (1, yf, errf)) ∧
        1 ≤ n ∧ (n : Int) ≤ 2 * r + 1 ∧ 0 ≤ yf ∧ yf ≤ r) ∧
    (0 ≤ r → ∀ x y err : Int, x ≤ 0 → 0 ≤ y → y ≤ r →
      err = (x + 1) * (x + 1) + (y + 1) * (y + 1) - r * r →
      ((fillCircleBody poX poY color x y err).2.1 = x
          ∨ (fillCircleBody poX poY color x y err).2.1 = x + 1) ∧
      ((fillCircleBody poX poY color x y err).2.2.1 = y
          ∨ (fillCircleBody poX poY color x y err).2.2.1 = y + 1) ∧
      ((fillCircleBody poX poY color x y err).2.1 = x + 1
          ∨ (fillCircleBody poX poY color x y err).2.2.1 = y + 1) ∧
      (fillCircleBody poX poY color x y err).2.2.1 ≤ r ∧
      (fillCircleBody poX poY color x y err).2.2.2
        = ((fillCircleBody poX poY color x y err).2.1 + 1)
            * ((fillCircleBody poX poY color x y err).2.1 + 1)
          + ((fillCircleBody poX poY color x y err).2.2.1 + 1)
            * ((fillCircleBody poX poY color x y err).2.2.1 + 1)
          - r * r) ∧
    (r < 0 →
      ∃ (px : List Pixel) (st : Int × Int × Int),
        ili9341_fillCircle 1 poX poY r color = some (px, 1, st)) ∧
    (∀ (fuel extra : Nat) (v : List Pixel × Nat × (Int × Int × Int)),
      ili9341_fillCircle fuel poX poY r color = some v →
      ili9341_fillCircle (fuel + extra) poX poY r color = some v) := by
  refine ⟨?_, ?_, ?_, ?_⟩
  · intro hr
    unfold ili9341_fillCircle
    obtain ⟨px, n, yf, errf, hloop, hn1, hn, hyf0, hyf⟩ :=
      fillCircleLoop_terminates poX poY color r (2 * r + 1).toNat (-r) 0 (2 - 2 * r)
        (by omega) (le_refl 0) hr (by ring) (by omega)
    exact ⟨px, n, yf, errf, hloop, hn1, by omega, hyf0, hyf⟩
  · intro _ x y err hx hy0 hyr herr
    exact fillCircleBody_step poX poY color r x y err hx hy0 hyr herr
  · intro hr
    unfold ili9341_fillCircle
    rw [fillCircleLoop]
    have hpos : ¬ (fillCircleBody poX poY color (-r) 0 (2 - 2 * r)).2.1 ≤ 0 := by
      unfold fillCircleBody
      simp only []
      split_ifs <;> omega
    rw [if_neg hpos]
    exact ⟨_, _, rfl⟩
  · intro fuel extra v h
    exact fillCircleLoop_mono poX poY color fuel extra _ _ _ v h

theorem fillCircle_terminates_witness :
    (0 : Int) ≤ 3 ∧
    (∃ (px : List Pixel) (n : Nat) (yf errf : Int),
        ili9341_fillCircle (2 * 3 + 1 : Int).toNat 100 100 3 7 = some (px, n, (1, yf, errf)) ∧
        1 ≤ n ∧ (n : Int) ≤ 2 * 3 + 1 ∧ 0 ≤ yf ∧ yf ≤ 3) ∧
    (ili9341_fillCircle 7 100 100 3 7).map (fun t => t.2) = some (5, (1, 3, 11)) :=
  ⟨by decide, (fillCircle_terminates 100 100 3 7).1 (by decide), by decide⟩

/-! ### Glyph rendering -/

theorem flatMap_range_below {α : Type} (f : Nat → α) (lo : Nat) :
    ∀ m, m ≤ lo →
      (List.range m).flatMap (fun k => if lo ≤ k then [f k] else []) = [] := by
  intro m
  induction m with
  | zero => intro _; rfl
  | succ m ih =>
    intro h
    rw [List.range_succ, List.flatMap_append, ih (by omega)]
    have : ¬ lo ≤ m := by omega
    simp [this]

theorem flatMap_range_from {α : Type} (f : Nat → α) (lo : Nat) :
    ∀ d, (List.range (lo + d)).flatMap (fun k => if lo ≤ k then [f k] else [])
      = (List.range d).map (fun t => f (lo + t)) := by
  intro d
  induction d with
  | zero => simp
  | succ d ih =>
    have e : lo + (d + 1) = (lo + d) + 1 := by omega
    rw [e, List.range_succ, List.flatMap_append, ih, List.range_succ, List.map_append]
    simp

theorem flatMap_blocks {α : Type} (g : Nat → α) :
    ∀ m, (List.range m).flatMap (fun i => (List.range 8).map (fun t => g (i * 8 + t)))
      = (List.range (m * 8)).map g := by
  intro m
  induction m with
  | zero => simp
  | succ m ih =>
    have e : (m + 1) * 8 = m * 8 + 8 := by omega
    rw [List.range_succ, List.flatMap_append, ih, e, List.range_add, List.map_append,
      List.map_map]
    simp only [List.flatMap_cons, List.flatMap_nil, List.append_nil]
    rfl

/-- The bits of one row-byte that pass the row test are those from `lo` on. -/
theorem charBits_eq (bX bY fg bg height : Int) (j i : Nat) (data offset : Int) (lo : Nat)
    (hlo : lo ≤ 8)
    (hcond : ∀ k : Nat, k < 8 →
      ((offset + (k : Int) ≥ (i : Int) * 8 ∧ offset + (k : Int) ≤ height) ↔ lo ≤ k)) :
    charBits bX bY fg bg height j i data offset
      = (List.range (8 - lo)).map (fun (t : Nat) =>
          ((bX + (j : Int), bY + offset + ((lo + t : Nat) : Int),
            if data.toNat.testBit (lo + t) then fg else bg) : Pixel)) := by
  unfold charBits
  have hcongr : (List.range 8).flatMap (fun (k : Nat) =>
        if offset + (k : Int) ≥ (i : Int) * 8 ∧ offset + (k : Int) ≤ height then
          [((bX + (j : Int), bY + offset + (k : Int),
              if data.toNat.testBit k then fg else bg) : Pixel)]
        else [])
      = (List.range 8).flatMap (fun (k : Nat) =>
        if lo ≤ k then
          [((bX + (j : Int), bY + offset + (k : Int),
              if data.toNat.testBit k then fg else bg) : Pixel)]
        else []) := by
    apply List.flatMap_congr
    intro k hk
    have hk8 : k < 8 := List.mem_range.mp hk
    by_cases h : lo ≤ k
    · rw [if_pos ((hcond k hk8).mpr h), if_pos h]
    · rw [if_neg (fun hc => h ((hcond k hk8).mp hc)), if_neg h]
  rw [hcongr]
  have e8 : 8 = lo + (8 - lo) := by omega
  conv_lhs => rw [e8]
  exact flatMap_range_from (fun k => ((bX + (j : Int), bY + offset + (k : Int),
      if data.toNat.testBit k then fg else bg) : Pixel)) lo (8 - lo)

theorem charRowByte_small (font : Font) (bX bY fg bg width index : Int) (h : Nat)
    (hh : h < 8) (j : Nat) :
    charRowByte font bX bY fg bg width (h : Int) 1 index j 0
      = (List.range (h + 1)).map (fun (t : Nat) =>
          specGlyphPixel font bX bY fg bg index width (h : Int) 1 j t) := by
  unfold charRowByte
  have hoff : (if ((0 : Nat) : Int) = (1 : Int) - 1 ∧ (1 : Int) > 1 then (h : Int) - 8
      else if (h : Int) < 8 then (h : Int) - 7 else ((0 : Nat) : Int) * 8) = (h : Int) - 7 := by
    have h1 : ¬ (((0 : Nat) : Int) = (1 : Int) - 1 ∧ (1 : Int) > 1) := by omega
    have h2 : (h : Int) < 8 := by omega
    rw [if_neg h1, if_pos h2]
  simp only [hoff]
  rw [charBits_eq bX bY fg bg (h : Int) j 0 _ ((h : Int) - 7) (7 - h) (by omega)
    (by intro k hk; constructor <;> intro hc <;> omega)]
  have e : 8 - (7 - h) = h + 1 := by omega
  rw [e]
  apply List.map_congr_left
  intro t ht
  have ht1 : t < h + 1 := List.mem_range.mp ht
  unfold specGlyphPixel specGlyphBit specRowOffset
  have hdiv : t / 8 = 0 := by omega
  have h1 : ¬ (((0 : Nat) : Int) = (1 : Int) - 1 ∧ (1 : Int) > 1) := by omega
  have h2 : (h : Int) < 8 := by omega
  rw [hdiv, if_neg h1, if_pos h2]
  have ek : ((t : Int) - ((h : Int) - 7)).toNat = 7 - h + t := by omega
  have ey : bY + ((h : Int) - 7) + ((7 - h + t : Nat) : Int) = bY + (t : Int) := by omega
  rw [ek, ey]

theorem charRowByte_full (font : Font) (bX bY fg bg width index : Int) (h b : Nat)
    (hh : 8 ≤ h) (hb : b = (h + 7) / 8) (j i : Nat) (hi : i + 1 < b) :
    charRowByte font bX bY fg bg width (h : Int) (b : Int) index j i
      = (List.range 8).map (fun (t : Nat) =>
          specGlyphPixel font bX bY fg bg index width (h : Int) (b : Int) j (i * 8 + t)) := by
  unfold charRowByte
  have h1 : ¬ ((i : Int) = (b : Int) - 1 ∧ (b : Int) > 1) := by omega
  have h2 : ¬ (h : Int) < 8 := by omega
  have hoff : (if (i : Int) = (b : Int) - 1 ∧ (b : Int) > 1 then (h : Int) - 8
      else if (h : Int) < 8 then (h : Int) - 7 else (i : Int) * 8) = (i : Int) * 8 := by
    rw [if_neg h1, if_neg h2]
  simp only [hoff]
  rw [charBits_eq bX bY fg bg (h : Int) j i _ ((i : Int) * 8) 0 (by omega)
    (by intro k hk; constructor <;> intro hc <;> omega)]
  apply List.map_congr_left
  intro t ht
  have ht1 : t < 8 := List.mem_range.mp ht
  unfold specGlyphPixel specGlyphBit specRowOffset
  have hdiv : (i * 8 + t) / 8 = i := by omega
  rw [hdiv, if_neg h1, if_neg h2]
  have ek : (((i * 8 + t : Nat) : Int) - (i : Int) * 8).toNat = 0 + t := by omega
  have ey : bY + (i : Int) * 8 + ((0 + t : Nat) : Int) = bY + ((i * 8 + t : Nat) : Int) := by
    push_cast; omega
  rw [ek, ey]

theorem charRowByte_last (font : Font) (bX bY fg bg width index : Int) (h b : Nat)
    (hh : 8 ≤ h) (hb : b = (h + 7) / 8) (j : Nat) :
    charRowByte font bX bY fg bg width (h : Int) (b : Int) index j (b - 1)
      = (List.range (h - (b - 1) * 8)).map (fun (t : Nat) =>
          specGlyphPixel font bX bY fg bg index width (h : Int) (b : Int) j
            ((b - 1) * 8 + t)) := by
  unfold charRowByte
  have h2 : ¬ (h : Int) < 8 := by omega
  have hb1 : 1 ≤ b := by omega
  by_cases hone : b = 1
  · have h8 : h = 8 := by omega
    subst hone
    subst h8
    have h1 : ¬ (((1 - 1 : Nat) : Int) = ((1 : Nat) : Int) - 1 ∧ ((1 : Nat) : Int) > 1) := by
      omega
    simp only [if_neg h1, if_neg h2]
    rw [charBits_eq bX bY fg bg ((8 : Nat) : Int) j (1 - 1) _ (((1 - 1 : Nat) : Int) * 8) 0
      (by omega) (by intro k hk; constructor <;> intro hc <;> omega)]
    apply List.map_congr_left
    intro t ht
    have ht1 : t < 8 := List.mem_range.mp ht
    unfold specGlyphPixel specGlyphBit specRowOffset
    have hdiv : ((1 - 1) * 8 + t) / 8 = 0 := by omega
    have h1' : ¬ (((0 : Nat) : Int) = ((1 : Nat) : Int) - 1 ∧ ((1 : Nat) : Int) > 1) := by
      omega
    rw [hdiv, if_neg h1', if_neg h2]
    have ek : ((((1 - 1) * 8 + t : Nat) : Int) - ((0 : Nat) : Int) * 8).toNat = 0 + t := by
      omega
    have ey : bY + ((1 - 1 : Nat) : Int) * 8 + ((0 + t : Nat) : Int)
        = bY + (((1 - 1) * 8 + t : Nat) : Int) := by
      push_cast; omega
    have ei : ((1 - 1 : Nat) : Int) = ((0 : Nat) : Int) := by omega
    rw [ek, ey, ei]
  · have h1 : ((b - 1 : Nat) : Int) = (b : Int) - 1 ∧ (b : Int) > 1 := by omega
    simp only [if_pos h1]
    rw [charBits_eq bX bY fg bg (h : Int) j (b - 1) _ ((h : Int) - 8) (8 - (h - (b - 1) * 8))
      (by omega) (by intro k hk; constructor <;> intro hc <;> omega)]
    have e : 8 - (8 - (h - (b - 1) * 8)) = h - (b - 1) * 8 := by omega
    rw [e]
    apply List.map_congr_left
    intro t ht
    have ht1 : t < h - (b - 1) * 8 := List.mem_range.mp ht
    unfold specGlyphPixel specGlyphBit specRowOffset
    have hdiv : ((b - 1) * 8 + t) / 8 = b - 1 := by omega
    rw [hdiv, if_pos h1]
    have ek : ((((b - 1) * 8 + t : Nat) : Int) - ((h : Int) - 8)).toNat
        = 8 - (h - (b - 1) * 8) + t := by omega
    have ey : bY + ((h : Int) - 8) + ((8 - (h - (b - 1) * 8) + t : Nat) : Int)
        = bY + (((b - 1) * 8 + t : Nat) : Int) := by omega
    rw [ek, ey]

/-- One glyph column: the row-bytes of column `j` write the rows `0 .. h-1` in
order (`0 .. h` when `h < 8`), each once. -/
theorem charColumn_eq (font : Font) (bX bY fg bg width index : Int) (h : Nat) (hh : 1 ≤ h)
    (j : Nat) :
    (List.range ((h + 7) / 8)).flatMap (fun (i : Nat) =>
        charRowByte font bX bY fg bg width (h : Int) (((h + 7) / 8 : Nat) : Int) index j i)
      = (List.range (if h < 8 then h + 1 else h)).map (fun (row : Nat) =>
          specGlyphPixel font bX bY fg bg index width (h : Int) (((h + 7) / 8 : Nat) : Int)
            j row) := by
  by_cases hsmall : h < 8
  · have hb : (h + 7) / 8 = 1 := by omega
    have r1 : List.range 1 = [0] := rfl
    rw [hb, if_pos hsmall, r1]
    simp only [List.flatMap_cons, List.flatMap_nil, List.append_nil, Nat.cast_one]
    exact charRowByte_small font bX bY fg bg width index h hsmall j
  · have h8 : 8 ≤ h := by omega
    rw [if_neg hsmall]
    obtain ⟨b, hb⟩ : ∃ b : Nat, b = (h + 7) / 8 := ⟨_, rfl⟩
    rw [← hb]
    have hb1 : 1 ≤ b := by omega
    have hsplit : b = (b - 1) + 1 := by omega
    have hfull : (List.range (b - 1)).flatMap (fun (i : Nat) =>
          charRowByte font bX bY fg bg width (h : Int) (b : Int) index j i)
        = (List.range (b - 1)).flatMap (fun (i : Nat) =>
          (List.range 8).map (fun (t : Nat) =>
            specGlyphPixel font bX bY fg bg index width (h : Int) (b : Int) j (i * 8 + t))) := by
      apply List.flatMap_congr
      intro i hi
      have hi1 : i < b - 1 := List.mem_range.mp hi
      exact charRowByte_full font bX bY fg bg width index h b h8 hb j i (by omega)
    have hr : List.range b = List.range (b - 1) ++ [b - 1] := by
      have hs := List.range_succ (b - 1)
      have e : (b - 1).succ = b := by omega
      rw [e] at hs
      exact hs
    rw [hr, List.flatMap_append, hfull]
    rw [flatMap_blocks (fun row =>
        specGlyphPixel font bX bY fg bg index width (h : Int) (b : Int) j row) (b - 1)]
    simp only [List.flatMap_cons, List.flatMap_nil, List.append_nil]
    rw [charRowByte_last font bX bY fg bg width index h b h8 hb j]
    have hr2 : List.range h = List.range ((b - 1) * 8)
        ++ (List.range (h - (b - 1) * 8)).map (fun x => (b - 1) * 8 + x) := by
      have hs := List.range_add ((b - 1) * 8) (h - (b - 1) * 8)
      have e : (b - 1) * 8 + (h - (b - 1) * 8) = h := by omega
      rw [e] at hs
      exact hs
    rw [hr2, List.map_append, List.map_map]
    rfl

theorem count_vrun_col (x y : Int) (f : Nat → Int) (p : Pixel) (n : Nat) :
    ((List.range n).map (fun (row : Nat) => ((x, y + (row : Int), f row) : Pixel))).count p
      = if p.1 = x ∧ y ≤ p.2.1 ∧ p.2.1 < y + n ∧ p.2.2 = f (p.2.1 - y).toNat then 1 else 0 := by
  obtain ⟨a, b, d⟩ := p
  induction n with
  | zero =>
    have : ¬ (a = x ∧ y ≤ b ∧ b < y + ((0 : Nat) : Int) ∧ d = f (b - y).toNat) := by
      rintro ⟨-, h1, h2, -⟩; simp at h2; omega
    simp only [List.range_zero, List.map_nil, List.count_nil, this, if_false]
  | succ n ih =>
    rw [List.range_succ, List.map_append, List.count_append, ih]
    simp only [List.map_cons, List.map_nil, List.count_cons, List.count_nil, zero_add,
      beq_iff_eq, Prod.mk.injEq]
    by_cases hb : b = y + (n : Int)
    · have e : (b - y).toNat = n := by omega
      rw [e]
      have hn1 : ¬ (a = x ∧ y ≤ b ∧ b < y + (n : Int) ∧ d = f n) := by
        rintro ⟨-, -, h, -⟩; omega
      rw [if_neg hn1]
      by_cases hc : a = x ∧ d = f n
      · have h1 : x = a ∧ y + (n : Int) = b ∧ f n = d := ⟨hc.1.symm, hb.symm, hc.2.symm⟩
        have h2 : a = x ∧ y ≤ b ∧ b < y + ((n + 1 : Nat) : Int) ∧ d = f n :=
          ⟨hc.1, by omega, by push_cast; omega, hc.2⟩
        rw [if_pos h1, if_pos h2]
      · have h1 : ¬ (x = a ∧ y + (n : Int) = b ∧ f n = d) :=
          fun h => hc ⟨h.1.symm, h.2.2.symm⟩
        have h2 : ¬ (a = x ∧ y ≤ b ∧ b < y + ((n + 1 : Nat) : Int) ∧ d = f n) :=
          fun h => hc ⟨h.1, h.2.2.2⟩
        rw [if_neg h1, if_neg h2]
    · have h1 : ¬ (x = a ∧ y + (n : Int) = b ∧ f n = d) := fun h => hb h.2.1.symm
      rw [if_neg h1, add_zero]
      by_cases hc : a = x ∧ y ≤ b ∧ b < y + (n : Int) ∧ d = f (b - y).toNat
      · have h2 : a = x ∧ y ≤ b ∧ b < y + ((n + 1 : Nat) : Int) ∧ d = f (b - y).toNat :=
          ⟨hc.1, hc.2.1, by push_cast; omega, hc.2.2.2⟩
        rw [if_pos hc, if_pos h2]
      · have h2 : ¬ (a = x ∧ y ≤ b ∧ b < y + ((n + 1 : Nat) : Int) ∧ d = f (b - y).toNat) := by
          rintro ⟨ha, hy, hlt, hd⟩
          exact hc ⟨ha, hy, by push_cast at hlt; omega, hd⟩
        rw [if_neg hc, if_neg h2]

theorem count_box_col (x y : Int) (col : Nat → Nat → Int) (p : Pixel) (n : Nat) (m : Nat) :
    ((List.range m).flatMap (fun (j : Nat) =>
        (List.range n).map (fun (row : Nat) =>
          ((x + (j : Int), y + (row : Int), col j row) : Pixel)))).count p
      = if x ≤ p.1 ∧ p.1 < x + m ∧ y ≤ p.2.1 ∧ p.2.1 < y + n
            ∧ p.2.2 = col (p.1 - x).toNat (p.2.1 - y).toNat then 1 else 0 := by
  induction m with
  | zero =>
    have : ¬ (x ≤ p.1 ∧ p.1 < x + ((0 : Nat) : Int) ∧ y ≤ p.2.1 ∧ p.2.1 < y + n
        ∧ p.2.2 = col (p.1 - x).toNat (p.2.1 - y).toNat) := by
      rintro ⟨h1, h2, -⟩; simp at h2; omega
    simp only [List.range_zero, List.flatMap_nil, List.count_nil, this, if_false]
  | succ m ih =>
    rw [List.range_succ, List.flatMap_append, List.count_append, ih]
    simp only [List.flatMap_cons, List.flatMap_nil, List.append_nil]
    rw [count_vrun_col (x + (m : Int)) y (col m) p n]
    by_cases hm : p.1 = x + (m : Int)
    · have e : (p.1 - x).toNat = m := by omega
      rw [e]
      have h1 : ¬ (x ≤ p.1 ∧ p.1 < x + (m : Int) ∧ y ≤ p.2.1 ∧ p.2.1 < y + n
          ∧ p.2.2 = col m (p.2.1 - y).toNat) := by
        rintro ⟨-, h, -⟩; omega
      rw [if_neg h1, zero_add]
      by_cases hc : y ≤ p.2.1 ∧ p.2.1 < y + n ∧ p.2.2 = col m (p.2.1 - y).toNat
      · rw [if_pos ⟨hm, hc⟩, if_pos ⟨by omega, by push_cast; omega, hc⟩]
      · rw [if_neg (fun h => hc h.2), if_neg (fun h => hc h.2.2)]
    · have h1 : ¬ (p.1 = x + (m : Int) ∧ y ≤ p.2.1 ∧ p.2.1 < y + n
          ∧ p.2.2 = col m (p.2.1 - y).toNat) := fun h => hm h.1
      rw [if_neg h1, add_zero]
      by_cases hc : x ≤ p.1 ∧ p.1 < x + (m : Int) ∧ y ≤ p.2.1 ∧ p.2.1 < y + n
          ∧ p.2.2 = col (p.1 - x).toNat (p.2.1 - y).toNat
      · rw [if_pos hc, if_pos ⟨hc.1, by push_cast; omega, hc.2.2⟩]
      · have h2 : ¬ (x ≤ p.1 ∧ p.1 < x + ((m + 1 : Nat) : Int) ∧ y ≤ p.2.1 ∧ p.2.1 < y + n
            ∧ p.2.2 = col (p.1 - x).toNat (p.2.1 - y).toNat) := by
          rintro ⟨ha, hlt, hr⟩
          exact hc ⟨ha, by push_cast at hlt; omega, hr⟩
        rw [if_neg hc, if_neg h2]

/-- The drawing loops of `TFT_char` write the glyph box column by column,
each pixel once, with the colour the glyph bit selects. -/
theorem charGlyph_eq (font : Font) (bX bY fg bg index : Int) (w h : Nat) (hh : 1 ≤ h) :
    charGlyph font bX bY fg bg (w : Int) (h : Int) (((h + 7) / 8 : Nat) : Int) index
      = (List.range w).flatMap (fun (j : Nat) =>
          (List.range (if h < 8 then h + 1 else h)).map (fun (row : Nat) =>
            specGlyphPixel font bX bY fg bg index (w : Int) (h : Int)
              (((h + 7) / 8 : Nat) : Int) j row)) := by
  unfold charGlyph
  have e1 : ((w : Int)).toNat = w := by omega
  have e2 : ((((h + 7) / 8 : Nat) : Int)).toNat = (h + 7) / 8 := by omega
  rw [e1, e2]
  apply List.flatMap_congr
  intro j _
  exact charColumn_eq font bX bY fg bg (w : Int) index h hh j

theorem fontAt_range (font : Font) (i : Int) : 0 ≤ fontAt font i ∧ fontAt font i ≤ 255 := by
  unfold fontAt
  split_ifs <;> omega

theorem length_flatMap_range_map {α : Type} (f : Nat → Nat → α) (n : Nat) :
    ∀ m, ((List.range m).flatMap (fun j => (List.range n).map (f j))).length = m * n := by
  intro m
  induction m with
  | zero => simp
  | succ m ih =>
    rw [List.range_succ, List.flatMap_append, List.length_append, ih]
    simp [Nat.succ_mul]

/-- What `TFT_char` does for a character of the font's range, off the space
and off the early returns: it returns the glyph width and runs the drawing
loops at the cursor. -/
theorem TFT_char_glyph (H : FontsHeader) (signedChar : Bool) (self : ILI9341PyObject)
    (ch h w : Nat) (c index : Int)
    (hcx : 0 ≤ self.cursor_x ∧ self.cursor_x < self.width)
    (hcy : 0 ≤ self.cursor_y ∧ self.cursor_y < self.height)
    (hch : ch < 256) (hsigned : signedChar = true → ch < 128) (hspace : ch ≠ 32)
    (hfirst : fontAt self.font H.FONT_FIRST_CHAR ≤ (ch : Int))
    (hlast : (ch : Int) < fontAt self.font H.FONT_FIRST_CHAR + fontAt self.font H.FONT_CHAR_COUNT)
    (hheight : fontAt self.font H.FONT_HEIGHT = (h : Int))
    (hc : c = (ch : Int) - fontAt self.font H.FONT_FIRST_CHAR)
    (hw : charGlyphWidth H self.font c = (w : Int))
    (hindex : index = charGlyphIndex H self.font c (((h + 7) / 8 : Nat) : Int)
      (fontAt self.font H.FONT_CHAR_COUNT)) :
    TFT_char H signedChar self ch
      = ((w : Int), charGlyph self.font self.cursor_x self.cursor_y self.color self.bg_color
          (w : Int) (h : Int) (((h + 7) / 8 : Nat) : Int) index) := by
  have hf0 := (fontAt_range self.font H.FONT_FIRST_CHAR).1
  have hh255 : h ≤ 255 := by
    have := (fontAt_range self.font H.FONT_HEIGHT).2
    omega
  have htc : toChar signedChar (ch : Int) = (ch : Int) := by
    unfold toChar
    cases signedChar with
    | false => simp only [Bool.false_eq_true, if_false]; omega
    | true =>
      have := hsigned rfl
      simp only [if_true]; omega
  have htc2 : toChar signedChar ((ch : Int) - fontAt self.font H.FONT_FIRST_CHAR) = c := by
    rw [hc]
    unfold toChar
    cases signedChar with
    | false => simp only [Bool.false_eq_true, if_false]; omega
    | true =>
      have := hsigned rfl
      simp only [if_true]; omega
  have hbytes : wrapU8 (((h : Int) + 7).tdiv 8) = (((h + 7) / 8 : Nat) : Int) := by
    rw [Int.tdiv_eq_ediv (by omega) (by omega)]
    unfold wrapU8
    omega
  have h1 : ¬ (self.cursor_x ≥ self.width ∨ self.cursor_y ≥ self.height) := by omega
  have h2 : ¬ ((ch : Int) = 32) := by omega
  have h3 : ¬ ((ch : Int) < fontAt self.font H.FONT_FIRST_CHAR
      ∨ (ch : Int) ≥ fontAt self.font H.FONT_FIRST_CHAR + fontAt self.font H.FONT_CHAR_COUNT) := by
    omega
  have h4 : ¬ (self.cursor_x < -(w : Int) ∨ self.cursor_y < -(h : Int)) := by omega
  unfold TFT_char
  simp only [htc, htc2, hheight, hbytes, hw, ← hindex, if_neg h1, if_neg h2, if_neg h3,
    if_neg h4]

/-- C14, amended. For a non-space character of the font's range (a character
code that plain `char` holds unchanged), glyph height `h ≥ 1` and glyph width
`w`, drawn at an on-screen cursor `(cx,cy)`, `TFT_char` returns `w` and does an
opaque box render: it writes each pixel `(cx+j, cy+row)` with `0 ≤ j < w` and
`0 ≤ row < h` -- for `h < 8` also the row `row = h` -- exactly once, in the
foreground colour if the glyph bit of the row offset mapping is set and in the
background colour otherwise, and it writes no other pixel. -/
theorem char_glyph_box (H : FontsHeader) (signedChar : Bool) (self : ILI9341PyObject)
    (ch h w : Nat) (c index : Int)
    (hcx : 0 ≤ self.cursor_x ∧ self.cursor_x < self.width)
    (hcy : 0 ≤ self.cursor_y ∧ self.cursor_y < self.height)
    (hch : ch < 256) (hsigned : signedChar = true → ch < 128) (hspace : ch ≠ 32)
    (hfirst : fontAt self.font H.FONT_FIRST_CHAR ≤ (ch : Int))
    (hlast : (ch : Int) < fontAt self.font H.FONT_FIRST_CHAR + fontAt self.font H.FONT_CHAR_COUNT)
    (hheight : fontAt self.font H.FONT_HEIGHT = (h : Int)) (hh : 1 ≤ h)
    (hc : c = (ch : Int) - fontAt self.font H.FONT_FIRST_CHAR)
    (hw : charGlyphWidth H self.font c = (w : Int))
    (hindex : index = charGlyphIndex H self.font c (((h + 7) / 8 : Nat) : Int)
      (fontAt self.font H.FONT_CHAR_COUNT)) :
    (TFT_char H signedChar self ch).1 = (w : Int) ∧
    (TFT_char H signedChar self ch).2.length = w * (if h < 8 then h + 1 else h) ∧
    ∀ p : Pixel, (TFT_char H signedChar self ch).2.count p
      = if self.cursor_x ≤ p.1 ∧ p.1 < self.cursor_x + (w : Int)
            ∧ self.cursor_y ≤ p.2.1
            ∧ p.2.1 < self.cursor_y + ((if h < 8 then h + 1 else h : Nat) : Int)
            ∧ p.2.2 = (if specGlyphBit self.font index (w : Int) (h : Int)
                          (((h + 7) / 8 : Nat) : Int)
                          (p.1 - self.cursor_x).toNat (p.2.1 - self.cursor_y).toNat
                        then self.color else self.bg_color)
        then 1 else 0 := by
  rw [TFT_char_glyph H signedChar self ch h w c index hcx hcy hch hsigned hspace hfirst hlast
    hheight hc hw hindex, charGlyph_eq self.font self.cursor_x self.cursor_y self.color
    self.bg_color index w h hh]
  refine ⟨rfl, ?_, ?_⟩
  · exact length_flatMap_range_map _ _ w
  · intro p
    exact count_box_col self.cursor_x self.cursor_y
      (fun j row => if specGlyphBit self.font index (w : Int) (h : Int)
          (((h + 7) / 8 : Nat) : Int) j row then self.color else self.bg_color) p _ w

theorem char_glyph_box_witness :
    ((0 : Int) ≤ 10 ∧ (10 : Int) < 240) ∧ ((0 : Int) ≤ 20 ∧ (20 : Int) < 320) ∧
    (97 : Nat) < 256 ∧ (97 : Nat) ≠ 32 ∧ 1 ≤ (7 : Nat) ∧
    (TFT_char specLayout false
        { zeroObject with width := 240, height := 320, cursor_x := 10, cursor_y := 20,
                          color := 9, bg_color := 2,
                          font := [7, 97, 26, 0, 0, 5, 0x7F, 0x08, 0x04, 0x04, 0x78] } 97).1
      = ((5 : Nat) : Int) ∧
    (TFT_char specLayout false
        { zeroObject with width := 240, height := 320, cursor_x := 10, cursor_y := 20,
                          color := 9, bg_color := 2,
                          font := [7, 97, 26, 0, 0, 5, 0x7F, 0x08, 0x04, 0x04, 0x78] } 97).2.length
      = 5 * (if (7 : Nat) < 8 then 7 + 1 else 7) :=
  ⟨by decide, by decide, by decide, by decide, by decide,
   (char_glyph_box specLayout false
      { zeroObject with width := 240, height := 320, cursor_x := 10, cursor_y := 20,
                        color := 9, bg_color := 2,
                        font := [7, 97, 26, 0, 0, 5, 0x7F, 0x08, 0x04, 0x04, 0x78] }
      97 7 5 0 6 (by decide) (by decide) (by decide) (by decide) (by decide) (by decide)
      (by decide) (by decide) (by decide) (by decide) (by decide) (by decide)).1,
   (char_glyph_box specLayout false
      { zeroObject with width := 240, height := 320, cursor_x := 10, cursor_y := 20,
                        color := 9, bg_color := 2,
                        font := [7, 97, 26, 0, 0, 5, 0x7F, 0x08, 0x04, 0x04, 0x78] }
      97 7 5 0 6 (by decide) (by decide) (by decide) (by decide) (by decide) (by decide)
      (by decide) (by decide) (by decide) (by decide) (by decide) (by decide)).2.1⟩

/-- C14 as stated fails in two ways. For a font of height 7, drawing `'a'` at
cursor `(10,20)` also writes the pixel `(10, 27)`, in the row below the 5-by-7
glyph box `[10,15) × [20,27)`. And where plain `char` is signed, a character
code from 128 on is negative in `TFT_char`: for a font of height 8 with range
`[128, 228)` and width 1 the character 200 is in range, yet nothing is
drawn. -/
theorem char_glyph_box_fails :
    ¬ (∀ p ∈ (TFT_char specLayout false
          { zeroObject with width := 240, height := 320, cursor_x := 10, cursor_y := 20,
                            color := 9, bg_color := 2,
                            font := [7, 97, 26, 0, 0, 5, 0x7F, 0x08, 0x04, 0x04, 0x78] } 97).2,
        (10 : Int) ≤ p.1 ∧ p.1 < 10 + 5 ∧ (20 : Int) ≤ p.2.1 ∧ p.2.1 < 20 + 7) ∧
    (fontAt [8, 128, 100, 0, 0, 1] specLayout.FONT_FIRST_CHAR ≤ 200 ∧
      (200 : Int) < fontAt [8, 128, 100, 0, 0, 1] specLayout.FONT_FIRST_CHAR
        + fontAt [8, 128, 100, 0, 0, 1] specLayout.FONT_CHAR_COUNT ∧
      charGlyphWidth specLayout [8, 128, 100, 0, 0, 1] (200 - 128) = 1 ∧
      TFT_char specLayout true
          { zeroObject with width := 240, height := 320, cursor_x := 10, cursor_y := 20,
                            color := 9, bg_color := 2, font := [8, 128, 100, 0, 0, 1] } 200
        = (0, [])) := by
  decide

/-! ### Circle: bounding square -/

theorem drawCircleLoop_in_square (x0 y0 c r : Int) :
    ∀ (fuel : Nat) (f ddF_x ddF_y x y : Int), 0 ≤ x → y ≤ r → y ≤ 32767 →
      ∀ p ∈ drawCircleLoop x0 y0 c fuel f ddF_x ddF_y x y,
        x0 - r ≤ p.1 ∧ p.1 ≤ x0 + r ∧ y0 - r ≤ p.2.1 ∧ p.2.1 ≤ y0 + r := by
  intro fuel
  induction fuel with
  | zero => intro f ddF_x ddF_y x y _ _ _ p hp; simp [drawCircleLoop] at hp
  | succ n ih =>
    intro f ddF_x ddF_y x y hx hyr hy16 p hp
    rw [drawCircleLoop] at hp
    by_cases hxy : x < y
    · simp only [if_pos hxy, List.mem_append] at hp
      have hx1 : wrap16 (x + 1) = x + 1 := wrap16_of_range _ (by omega) (by omega)
      have hy1 : wrap16 (y - 1) = y - 1 := wrap16_of_range _ (by omega) (by omega)
      have hynew0 : 0 ≤ (if f ≥ 0 then wrap16 (y - 1) else y) := by
        split_ifs <;> omega
      have hynew1 : (if f ≥ 0 then wrap16 (y - 1) else y) ≤ y := by
        split_ifs <;> omega
      rcases hp with hp | hp
      · obtain ⟨a, b, d⟩ := p
        rw [mem_circleOctants, hx1] at hp
        obtain ⟨-, hcase⟩ := hp
        simp only []
        rcases hcase with ⟨ha, hb⟩ | ⟨ha, hb⟩
        · rcases ha with ha | ha <;> rcases hb with hb | hb <;> omega
        · rcases ha with ha | ha <;> rcases hb with hb | hb <;> omega
      · exact ih _ _ _ _ _ (by rw [hx1]; omega) (by omega) (by omega) p hp
    · simp only [if_neg hxy, List.not_mem_nil] at hp

/-- C21. For every centre `(x0,y0)` and every radius `r ≥ 0`, every pixel
`(px,py)` written by `circle(x0,y0,r,c)` lies in the bounding square of the
circle: `|px - x0| ≤ r` and `|py - y0| ≤ r`. -/
theorem drawCircle_in_bounding_square (x0 y0 r c : Int) (hr : 0 ≤ r) :
    ∀ p ∈ ili9341_drawCircle x0 y0 r c, |p.1 - x0| ≤ r ∧ |p.2.1 - y0| ≤ r := by
  intro p hp
  have hbox : x0 - r ≤ p.1 ∧ p.1 ≤ x0 + r ∧ y0 - r ≤ p.2.1 ∧ p.2.1 ≤ y0 + r := by
    unfold ili9341_drawCircle at hp
    simp only [List.mem_append] at hp
    rcases hp with hp | hp
    · obtain ⟨a, b, d⟩ := p
      rw [mem_circleAxes] at hp
      obtain ⟨-, hcase⟩ := hp
      simp only []
      rcases hcase with ⟨ha, hb⟩ | ⟨ha, hb⟩
      · rcases hb with hb | hb <;> omega
      · rcases ha with ha | ha <;> omega
    · have hw0 : wrap16 0 = 0 := by decide
      have hyr : wrap16 r ≤ r := by
        unfold wrap16
        omega
      exact drawCircleLoop_in_square x0 y0 c r _ _ _ _ _ _ (by rw [hw0])
        hyr (wrap16_range r).2 p hp
  rw [abs_le, abs_le]
  omega

theorem drawCircle_in_bounding_square_witness :
    (0 : Int) ≤ 3 ∧ ((102, 98, 7) : Pixel) ∈ ili9341_drawCircle 100 100 3 7 ∧
    |((102, 98, 7) : Pixel).1 - 100| ≤ 3 ∧ |((102, 98, 7) : Pixel).2.1 - 100| ≤ 3 :=
  ⟨by decide, by decide,
   drawCircle_in_bounding_square 100 100 3 7 (by decide) (102, 98, 7) (by decide)⟩

/-! ### Rotation: framing of the flag byte -/

/-- C22, evaluated for the four modes. `rotation(mode)` puts two bytes on the
bus, the `MADCTL` command and the flag byte of the mode, and it sends the flag
byte with `TFT_sendCMD`, D/C low, as a second command byte. The initialization
sequence sends its `MADCTL` parameter with `TFT_sendDATA`, D/C high. -/
theorem rotation_flag_byte_is_command (K : Header) (self : ILI9341PyObject) (d : Bool) :
    transfers d (ili9341_rotation K self 0).2
      = [Xfer.cmd (toByte K.ILI9341_MADCTL),
         Xfer.cmd (toByte ((K.MADCTL_MX ||| K.MADCTL_BGR : Nat) : Int))] ∧
    transfers d (ili9341_rotation K self 1).2
      = [Xfer.cmd (toByte K.ILI9341_MADCTL),
         Xfer.cmd (toByte ((K.MADCTL_MV ||| K.MADCTL_BGR : Nat) : Int))] ∧
    transfers d (ili9341_rotation K self 2).2
      = [Xfer.cmd (toByte K.ILI9341_MADCTL),
         Xfer.cmd (toByte ((K.MADCTL_MY ||| K.MADCTL_BGR : Nat) : Int))] ∧
    transfers d (ili9341_rotation K self 3).2
      = [Xfer.cmd (toByte K.ILI9341_MADCTL),
         Xfer.cmd (toByte
           ((K.MADCTL_MX ||| K.MADCTL_MY ||| K.MADCTL_MV ||| K.MADCTL_BGR : Nat) : Int))] ∧
    (∀ b : Nat, Xfer.cmd b ≠ Xfer.data b) ∧
    transfers d (TFT_sendCMD K.ILI9341_MADCTL
        ++ TFT_sendDATA ((K.MADCTL_MX ||| K.MADCTL_BGR : Nat) : Int))
      = [Xfer.cmd (toByte K.ILI9341_MADCTL),
         Xfer.data (toByte ((K.MADCTL_MX ||| K.MADCTL_BGR : Nat) : Int))] ∧
    (∃ pre post : List Ev,
      initScript K = pre ++ (TFT_sendCMD K.ILI9341_MADCTL
        ++ TFT_sendDATA ((K.MADCTL_MX ||| K.MADCTL_BGR : Nat) : Int)) ++ post) := by
  have t0 : (0 : Int).tmod 4 = 0 := by decide
  have t1 : (1 : Int).tmod 4 = 1 := by decide
  have t2 : (2 : Int).tmod 4 = 2 := by decide
  have t3 : (3 : Int).tmod 4 = 3 := by decide
  refine ⟨?_, ?_, ?_, ?_, ?_, ?_, ?_⟩
  · simp [ili9341_rotation, t0, transfers, TFT_sendCMD, TFT_sendByte, Xfer.cmd]
  · simp [ili9341_rotation, t1, transfers, TFT_sendCMD, TFT_sendByte, Xfer.cmd]
  · simp [ili9341_rotation, t2, transfers, TFT_sendCMD, TFT_sendByte, Xfer.cmd]
  · simp [ili9341_rotation, t3, transfers, TFT_sendCMD, TFT_sendByte, Xfer.cmd]
  · intro b h
    simp [Xfer.cmd, Xfer.data] at h
  · simp [transfers, TFT_sendCMD, TFT_sendDATA, TFT_sendByte, Xfer.cmd, Xfer.data]
  · refine ⟨List.flatten [
        TFT_sendCMD 0xEF, TFT_sendDATA 0x03, TFT_sendDATA 0x80, TFT_sendDATA 0x02,
        TFT_sendCMD 0xCB, TFT_sendDATA 0x39, TFT_sendDATA 0x2C, TFT_sendDATA 0x00,
        TFT_sendDATA 0x34, TFT_sendDATA 0x02,
        TFT_sendCMD 0xCF, TFT_sendDATA 0x00, TFT_sendDATA 0xC1, TFT_sendDATA 0x30,
        TFT_sendCMD 0xE8, TFT_sendDATA 0x85, TFT_sendDATA 0x00, TFT_sendDATA 0x78,
        TFT_sendCMD 0xEA, TFT_sendDATA 0x00, TFT_sendDATA 0x00,
        TFT_sendCMD 0xED, TFT_sendDATA 0x64, TFT_sendDATA 0x03, TFT_sendDATA 0x12,
        TFT_sendDATA 0x81,
        TFT_sendCMD 0xF7, TFT_sendDATA 0x20,
        TFT_sendCMD K.ILI9341_PWCTR1, TFT_sendDATA 0x23,
        TFT_sendCMD K.ILI9341_PWCTR2, TFT_sendDATA 0x10,
        TFT_sendCMD K.ILI9341_VMCTR1, TFT_sendDATA 0x3e, TFT_sendDATA 0x28,
        TFT_sendCMD K.ILI9341_VMCTR2, TFT_sendDATA 0x86],
      List.flatten [
        TFT_sendCMD K.ILI9341_PIXFMT, TFT_sendDATA 0x55,
        TFT_sendCMD K.ILI9341_FRMCTR1, TFT_sendDATA 0x00, TFT_sendDATA 0x18,
        TFT_sendCMD K.ILI9341_DFUNCTR, TFT_sendDATA 0x08, TFT_sendDATA 0x82, TFT_sendDATA 0x27,
        TFT_sendCMD 0xF2, TFT_sendDATA 0x00,
        TFT_sendCMD K.ILI9341_GAMMASET, TFT_sendDATA 0x01,
        TFT_sendCMD K.ILI9341_GMCTRP1,
        TFT_sendDATA 0x0F, TFT_sendDATA 0x31, TFT_sendDATA 0x2B, TFT_sendDATA 0x0C,
        TFT_sendDATA 0x0E, TFT_sendDATA 0x08, TFT_sendDATA 0x4E, TFT_sendDATA 0xF1,
        TFT_sendDATA 0x37, TFT_sendDATA 0x07, TFT_sendDATA 0x10, TFT_sendDATA 0x03,
        TFT_sendDATA 0x0E, TFT_sendDATA 0x09, TFT_sendDATA 0x00,
        TFT_sendCMD K.ILI9341_GMCTRN1,
        TFT_sendDATA 0x00, TFT_sendDATA 0x0E, TFT_sendDATA 0x14, TFT_sendDATA 0x03,
        TFT_sendDATA 0x11, TFT_sendDATA 0x07, TFT_sendDATA 0x31, TFT_sendDATA 0xC1,
        TFT_sendDATA 0x48, TFT_sendDATA 0x08, TFT_sendDATA 0x0F, TFT_sendDATA 0x0C,
        TFT_sendDATA 0x31, TFT_sendDATA 0x36, TFT_sendDATA 0x0F], ?_⟩
    simp [initScript, List.flatten]

/-! ### Text layout: the cursor stays left of and above the far edges -/

theorem writeStringLoop_bounds (H : FontsHeader) (signedChar : Bool) (font : Font) :
    ∀ (str : List Nat) (self : ILI9341PyObject),
      0 ≤ self.width → self.cursor_x ≤ self.width → self.cursor_y ≤ self.height →
      (writeStringLoop H signedChar font self str).1.cursor_x ≤ self.width ∧
      (writeStringLoop H signedChar font self str).1.cursor_y ≤ self.height ∧
      (writeStringLoop H signedChar font self str).1.width = self.width ∧
      (writeStringLoop H signedChar font self str).1.height = self.height ∧
      (writeStringLoop H signedChar font self str).1.font = self.font ∧
      (writeStringLoop H signedChar font self str).1.color = self.color := by
  intro str
  induction str with
  | nil => intro self _ hx hy; exact ⟨hx, hy, rfl, rfl, rfl, rfl⟩
  | cons ch rest ih =>
    intro self hw hx hy
    rw [writeStringLoop]
    simp only []
    by_cases h1 : self.cursor_x + (TFT_charWidth H signedChar self ch + self.char_spacing)
        ≤ self.width
    · simp only [if_pos h1]
      exact ih { self with cursor_x := self.cursor_x
          + (TFT_charWidth H signedChar self ch + self.char_spacing) } hw h1 hy
    · by_cases h2 : self.cursor_y + fontAt font H.FONT_HEIGHT + self.char_spacing ≤ self.height
      · simp only [if_neg h1, if_pos h2]
        exact ih { self with cursor_x := 0,
                             cursor_y := self.cursor_y + fontAt font H.FONT_HEIGHT
                               + self.char_spacing } hw hw h2
      · simp only [if_neg h1, if_neg h2]
        exact ih self hw hx hy

theorem writeStringLoop_append (H : FontsHeader) (signedChar : Bool) (font : Font) :
    ∀ (a b : List Nat) (self : ILI9341PyObject),
      (writeStringLoop H signedChar font self (a ++ b)).1
        = (writeStringLoop H signedChar font
            (writeStringLoop H signedChar font self a).1 b).1 := by
  intro a
  induction a with
  | nil => intro b self; rfl
  | cons ch rest ih =>
    intro b self
    rw [List.cons_append, writeStringLoop, writeStringLoop]
    simp only []
    exact ih b _

/-- C23. If `writeString` starts at a position with `x ≤ width` and
`y ≤ height` on a display with `width ≥ 0`, then after every character and at
the end `cursor_x ≤ width` and `cursor_y ≤ height`: this holds for the state
reached after the first `k` characters, for every `k`, and the whole string
is the first `k` characters followed by the rest written from that state. -/
theorem writeString_cursor_bounds (H : FontsHeader) (signedChar : Bool)
    (self : ILI9341PyObject) (str : List Nat) (x y color : Option Int)
    (hw : 0 ≤ self.width) (hx : x.getD self.cursor_x ≤ self.width)
    (hy : y.getD self.cursor_y ≤ self.height) (k : Nat) :
    (ili9341_writeString H signedChar self (str.take k) x y color).1.cursor_x ≤ self.width ∧
    (ili9341_writeString H signedChar self (str.take k) x y color).1.cursor_y ≤ self.height ∧
    (ili9341_writeString H signedChar self str x y color).1.cursor_x ≤ self.width ∧
    (ili9341_writeString H signedChar self str x y color).1.cursor_y ≤ self.height ∧
    (ili9341_writeString H signedChar self (str.take k) x y color).1.width = self.width ∧
    (ili9341_writeString H signedChar self (str.take k) x y color).1.height = self.height ∧
    (ili9341_writeString H signedChar self str x y color).1
      = (ili9341_writeString H signedChar
          (ili9341_writeString H signedChar self (str.take k) x y color).1
          (str.drop k) none none none).1 := by
  have hk := writeStringLoop_bounds H signedChar self.font (str.take k)
    { self with cursor_x := x.getD self.cursor_x, cursor_y := y.getD self.cursor_y,
                color := color.getD self.color } hw hx hy
  have hall := writeStringLoop_bounds H signedChar self.font str
    { self with cursor_x := x.getD self.cursor_x, cursor_y := y.getD self.cursor_y,
                color := color.getD self.color } hw hx hy
  refine ⟨hk.1, hk.2.1, hall.1, hall.2.1, hk.2.2.1, hk.2.2.2.1, ?_⟩
  unfold ili9341_writeString
  simp only [Option.getD_none]
  have hfont := hk.2.2.2.2.1
  simp only [] at hfont
  have hsplit : str = str.take k ++ str.drop k := (List.take_append_drop k str).symm
  conv_lhs => rw [hsplit]
  rw [writeStringLoop_append]
  generalize (writeStringLoop H signedChar self.font
      { self with cursor_x := x.getD self.cursor_x, cursor_y := y.getD self.cursor_y,
                  color := color.getD self.color } (List.take k str)).1 = mid at hfont ⊢
  cases mid
  simp only [] at hfont
  subst hfont
  rfl

theorem writeString_cursor_bounds_witness :
    0 ≤ ({ zeroObject with width := 12, height := 20, char_spacing := 1,
                           font := [7, 65, 26, 0, 0, 5] } : ILI9341PyObject).width ∧
    (ili9341_writeString specLayout false
        { zeroObject with width := 12, height := 20, char_spacing := 1,
                          font := [7, 65, 26, 0, 0, 5] } [65, 66, 67, 68] (some 3) (some 4)
        none).1.cursor_x ≤ 12 ∧
    (ili9341_writeString specLayout false
        { zeroObject with width := 12, height := 20, char_spacing := 1,
                          font := [7, 65, 26, 0, 0, 5] } [65, 66, 67, 68] (some 3) (some 4)
        none).1.cursor_y ≤ 20 :=
  ⟨by decide,
   (writeString_cursor_bounds specLayout false
      { zeroObject with width := 12, height := 20, char_spacing := 1,
                        font := [7, 65, 26, 0, 0, 5] } [65, 66, 67, 68] (some 3) (some 4) none
      (by decide) (by decide) (by decide) 2).2.2.1,
   (writeString_cursor_bounds specLayout false
      { zeroObject with width := 12, height := 20, char_spacing := 1,
                        font := [7, 65, 26, 0, 0, 5] } [65, 66, 67, 68] (some 3) (some 4) none
      (by decide) (by decide) (by decide) 2).2.2.2.1⟩

/-! ### Colour packing: the bit layout -/

theorem shiftLeft_or_eq_add (a b k : Nat) (h : b < 2 ^ k) : (a <<< k) ||| b = a * 2 ^ k + b := by
  rw [Nat.shiftLeft_eq, Nat.mul_comm a, Nat.mul_add_lt_is_or h]

theorem mask_small (v : Nat) (k : Nat) (h : v < 2 ^ k) (h32 : v < 4294967296) :
    toU32 (v : Int) &&& (2 ^ k - 1) = v := by
  have e : toU32 (v : Int) = v := by
    unfold toU32
    omega
  rw [e, Nat.and_pow_two_sub_one_eq_mod, Nat.mod_eq_of_lt h]

theorem rgb2color_value (r g b : Nat) (hr : r ≤ 31) (hg : g ≤ 63) (hb : b ≤ 31) :
    TFT_rgb2color r g b = ((r * 2048 + g * 32 + b : Nat) : Int) := by
  unfold TFT_rgb2color
  have er : toU32 (r : Int) &&& 0x1F = r := mask_small r 5 (by norm_num; omega) (by omega)
  have eg : toU32 (g : Int) &&& 0x3F = g := mask_small g 6 (by norm_num; omega) (by omega)
  have eb : toU32 (b : Int) &&& 0x1F = b := mask_small b 5 (by norm_num; omega) (by omega)
  simp only [er, eg, eb]
  rw [shiftLeft_or_eq_add r g 6 (by norm_num; omega),
    shiftLeft_or_eq_add (r * 2 ^ 6 + g) b 5 (by norm_num; omega)]
  congr 1
  norm_num
  ring

/-- C24. On its field ranges (`r` in `0..31`, `g` in `0..63`, `b` in `0..31`)
the colour packing is the 5-6-5 layout `(r << 11) | (g << 5) | b`; the three
fields are read back by `(v >> 11) & 0x1F`, `(v >> 5) & 0x3F` and `v & 0x1F`,
and distinct triples pack to distinct values. -/
theorem rgb2color_lossless (r g b : Nat) (hr : r ≤ 31) (hg : g ≤ 63) (hb : b ≤ 31) :
    TFT_rgb2color r g b = ((((r <<< 11) ||| (g <<< 5)) ||| b : Nat) : Int) ∧
    ((TFT_rgb2color r g b).toNat >>> 11) &&& 0x1F = r ∧
    ((TFT_rgb2color r g b).toNat >>> 5) &&& 0x3F = g ∧
    (TFT_rgb2color r g b).toNat &&& 0x1F = b ∧
    ∀ r2 g2 b2 : Nat, r2 ≤ 31 → g2 ≤ 63 → b2 ≤ 31 →
      TFT_rgb2color r g b = TFT_rgb2color r2 g2 b2 → r = r2 ∧ g = g2 ∧ b = b2 := by
  have hv := rgb2color_value r g b hr hg hb
  have m5 : (0x1F : Nat) = 2 ^ 5 - 1 := by norm_num
  have m6 : (0x3F : Nat) = 2 ^ 6 - 1 := by norm_num
  have htn : (TFT_rgb2color r g b).toNat = r * 2048 + g * 32 + b := by
    rw [hv]; omega
  refine ⟨?_, ?_, ?_, ?_, ?_⟩
  · rw [hv]
    congr 1
    have e1 : (r <<< 11) ||| (g <<< 5) = r * 2048 + g * 32 := by
      rw [Nat.shiftLeft_eq g 5, shiftLeft_or_eq_add r (g * 2 ^ 5) 11 (by norm_num; omega)]
      norm_num
    have e3 : (r * 2048 + g * 32) ||| b = r * 2048 + g * 32 + b := by
      have h3 := shiftLeft_or_eq_add (r * 64 + g) b 5 (by norm_num; omega)
      rw [Nat.shiftLeft_eq] at h3
      have e : (r * 64 + g) * 2 ^ 5 = r * 2048 + g * 32 := by norm_num; ring
      rw [e] at h3
      exact h3
    rw [e1, e3]
  · rw [htn, m5, Nat.and_pow_two_sub_one_eq_mod, Nat.shiftRight_eq_div_pow]
    norm_num
    omega
  · rw [htn, m6, Nat.and_pow_two_sub_one_eq_mod, Nat.shiftRight_eq_div_pow]
    norm_num
    omega
  · rw [htn, m5, Nat.and_pow_two_sub_one_eq_mod]
    norm_num
    omega
  · intro r2 g2 b2 hr2 hg2 hb2 heq
    rw [hv, rgb2color_value r2 g2 b2 hr2 hg2 hb2] at heq
    have : r * 2048 + g * 32 + b = r2 * 2048 + g2 * 32 + b2 := by exact_mod_cast heq
    omega

theorem rgb2color_lossless_witness :
    (10 : Nat) ≤ 31 ∧ (33 : Nat) ≤ 63 ∧ (7 : Nat) ≤ 31 ∧
    TFT_rgb2color (10 : Nat) (33 : Nat) (7 : Nat)
      = (((((10 : Nat) <<< 11) ||| ((33 : Nat) <<< 5)) ||| (7 : Nat) : Nat) : Int) ∧
    ((TFT_rgb2color (10 : Nat) (33 : Nat) (7 : Nat)).toNat >>> 5) &&& 0x3F = 33 :=
  ⟨by decide, by decide, by decide,
   (rgb2color_lossless 10 33 7 (by decide) (by decide) (by decide)).1,
   (rgb2color_lossless 10 33 7 (by decide) (by decide) (by decide)).2.2.1⟩

end ILI9341
